import Mathlib

/-!
A verification development for the SauliethWM tiling window manager.

The definitions below are shallow embeddings of the Python source:

* `sauliethwm/tiling/rect.py`        → `SWM.Rect` and its geometric operations
* `sauliethwm/tiling/layouts.py`     → `SWM.arrange*` and `SWM.LayoutParams`
* `sauliethwm/core/filter.py`        → `SWM.isManageable`
* `sauliethwm/core/window.py`        → `SWM.enterFullscreen` / `SWM.exitFullscreen`
* `sauliethwm/core/manager.py` and
  `sauliethwm/tiling/workspace_manager.py` and the event wiring of
  `sauliethwm/__main__.py`           → the combined transition system `SWM.Sys`

Python `int` is modelled as `Int`, Python `float` as `Rat` (the float
literals 0.55, 0.05 … are taken at their decimal value; none of the
verified properties depends on rounding of the binary representation),
Python `int(x)` truncation as `pyTrunc`, and Python floor division `//`
as `Int.fdiv`.
-/

namespace SWM

/-- Python `int(q)`: truncation of a rational toward zero. -/
def pyTrunc (q : ℚ) : ℤ := if q < 0 then -((-q).floor) else q.floor

theorem pyTrunc_def' (q : ℚ) : pyTrunc q = if q < 0 then -(⌊-q⌋) else ⌊q⌋ := by
  have hq : ∀ r : ℚ, Rat.floor r = ⌊r⌋ := fun r => by
    rw [Rat.floor_def' r, ← Rat.floor_def]
  rw [pyTrunc, hq, hq]

theorem pyTrunc_eq_floor {q : ℚ} (h : 0 ≤ q) : pyTrunc q = ⌊q⌋ := by
  rw [pyTrunc_def', if_neg (not_lt.mpr h)]

/-- Python floor division `a // b` on integers. -/
def pyDiv (a b : ℤ) : ℤ := Int.fdiv a b

/-- `Rect` from `sauliethwm/tiling/rect.py`: position and dimensions in pixels. -/
structure Rect where
  x : ℤ
  y : ℤ
  w : ℤ
  h : ℤ
  deriving DecidableEq, Repr

/-- `Rect.split_horizontal`: left column takes `⌊w·ratio⌋`, right the rest. -/
def Rect.splitHorizontal (r : Rect) (ratio : ℚ) : Rect × Rect :=
  let leftW := pyTrunc ((r.w : ℚ) * ratio)
  let rightW := r.w - leftW
  (⟨r.x, r.y, leftW, r.h⟩, ⟨r.x + leftW, r.y, rightW, r.h⟩)

/-- `Rect.split_vertical`: top row takes `⌊h·ratio⌋`, bottom the rest. -/
def Rect.splitVertical (r : Rect) (ratio : ℚ) : Rect × Rect :=
  let topH := pyTrunc ((r.h : ℚ) * ratio)
  let bottomH := r.h - topH
  (⟨r.x, r.y, r.w, topH⟩, ⟨r.x, r.y + topH, r.w, bottomH⟩)

/-- `Rect.slice_rows(count)`: `count` rows of height `h // count`, the last row
absorbing the remainder.  The source accumulates `y`; after `i` full rows the
cursor sits at `y + i·base`, which is the closed form used here. -/
def Rect.sliceRows (r : Rect) (count : ℕ) : List Rect :=
  if count = 0 then []
  else if count = 1 then [r]
  else
    let base := pyDiv r.h count
    (List.range count).map fun i =>
      if i < count - 1 then ⟨r.x, r.y + i * base, r.w, base⟩
      else ⟨r.x, r.y + i * base, r.w, r.h - i * base⟩

/-- `Rect.slice_columns(count)`: transpose of `sliceRows`. -/
def Rect.sliceColumns (r : Rect) (count : ℕ) : List Rect :=
  if count = 0 then []
  else if count = 1 then [r]
  else
    let base := pyDiv r.w count
    (List.range count).map fun i =>
      if i < count - 1 then ⟨r.x + i * base, r.y, base, r.h⟩
      else ⟨r.x + i * base, r.y, r.w - i * base, r.h⟩

/-- `Rect.pad(gap)`: uniform interior margin, dimensions clamped at 0. -/
def Rect.pad (r : Rect) (gap : ℤ) : Rect :=
  ⟨r.x + gap, r.y + gap, max 0 (r.w - 2 * gap), max 0 (r.h - 2 * gap)⟩

/-- `TallLayout.arrange` from `layouts.py`: master column on the left, the
remaining `count - 1` windows stacked in rows on the right. -/
def arrangeTall (ratio : ℚ) (gap : ℤ) (count : ℕ) (area : Rect) : List Rect :=
  if count = 0 then []
  else if count = 1 then [area.pad gap]
  else
    let split := area.splitHorizontal ratio
    let masterArea := split.1
    let stackArea := split.2
    let masterRect : Rect :=
      ⟨masterArea.x + gap, masterArea.y + gap,
       masterArea.w - gap - pyDiv gap 2, masterArea.h - 2 * gap⟩
    let stackCount := count - 1
    let stackRows := stackArea.sliceRows stackCount
    let stackRects := stackRows.enum.map fun p =>
      let i := p.1
      let row := p.2
      let topGap := if i = 0 then gap else pyDiv gap 2
      let bottomGap := if i = stackCount - 1 then gap else pyDiv gap 2
      (⟨row.x + pyDiv gap 2, row.y + topGap,
        row.w - gap - pyDiv gap 2, row.h - topGap - bottomGap⟩ : Rect)
    masterRect :: stackRects

/-- `WideLayout.arrange`: master row on top, stack in columns below. -/
def arrangeWide (ratio : ℚ) (gap : ℤ) (count : ℕ) (area : Rect) : List Rect :=
  if count = 0 then []
  else if count = 1 then [area.pad gap]
  else
    let split := area.splitVertical ratio
    let masterArea := split.1
    let stackArea := split.2
    let masterRect : Rect :=
      ⟨masterArea.x + gap, masterArea.y + gap,
       masterArea.w - 2 * gap, masterArea.h - gap - pyDiv gap 2⟩
    let stackCount := count - 1
    let stackCols := stackArea.sliceColumns stackCount
    let stackRects := stackCols.enum.map fun p =>
      let i := p.1
      let col := p.2
      let leftGap := if i = 0 then gap else pyDiv gap 2
      let rightGap := if i = stackCount - 1 then gap else pyDiv gap 2
      (⟨col.x + leftGap, col.y + pyDiv gap 2,
        col.w - leftGap - rightGap, col.h - gap - pyDiv gap 2⟩ : Rect)
    masterRect :: stackRects

/-- `MonocleLayout.arrange`: every window receives the padded full area. -/
def arrangeMonocle (gap : ℤ) (count : ℕ) (area : Rect) : List Rect :=
  if count = 0 then [] else List.replicate count (area.pad gap)

/-- The `for idx, win_idx in enumerate(wins)` loops of
`ThreeColumnLayout.arrange` that assign `slots[win_idx] = rect(idx)`:
`ps` is `wins.enum` and `f` builds the rect from the enumeration index. -/
def slotsFold (f : ℕ → Rect) (ps : List (ℕ × ℕ)) (acc : List (Option Rect)) :
    List (Option Rect) :=
  ps.foldl (fun l p => l.set p.2 (some (f p.1))) acc

/-- Side-column rect of `ThreeColumnLayout.arrange` for the column stack `wins`
with rows `rows`: `xGap` is the padding applied on the left edge (a full `gap`
for the left column, `gap // 2` for the right one). -/
def threeColSideRect (gap : ℤ) (rows : List Rect) (nSide : ℕ) (xGap : ℤ)
    (idx : ℕ) : Rect :=
  let row := rows.getD idx ⟨0, 0, 0, 0⟩
  let topGap := if idx = 0 then gap else pyDiv gap 2
  let bottomGap := if idx = nSide - 1 then gap else pyDiv gap 2
  ⟨row.x + xGap, row.y + topGap,
   row.w - gap - pyDiv gap 2, row.h - topGap - bottomGap⟩

/-- `ThreeColumnLayout.arrange`: master in the centre column, secondary
windows alternating left (odd index) / right (even index).  The `slots` array
of the source is modelled as a `List (Option Rect)` filled by `List.set`; the
source's dead local `results` (immediately shadowed by `slots`) is omitted. -/
def arrangeThreeColumn (ratio : ℚ) (gap : ℤ) (count : ℕ) (area : Rect) :
    List Rect :=
  if count = 0 then []
  else if count = 1 then [area.pad gap]
  else if count = 2 then
    let split := area.splitHorizontal ratio
    let left := split.1
    let right := split.2
    [⟨left.x + gap, left.y + gap,
      left.w - gap - pyDiv gap 2, left.h - 2 * gap⟩,
     ⟨right.x + pyDiv gap 2, right.y + gap,
      right.w - gap - pyDiv gap 2, right.h - 2 * gap⟩]
  else
    let sideRatio : ℚ := (1 - ratio) / 2
    let leftW := pyTrunc ((area.w : ℚ) * sideRatio)
    let centerW := pyTrunc ((area.w : ℚ) * ratio)
    let rightW := area.w - leftW - centerW
    let leftArea : Rect := ⟨area.x, area.y, leftW, area.h⟩
    let centerArea : Rect := ⟨area.x + leftW, area.y, centerW, area.h⟩
    let rightArea : Rect := ⟨area.x + leftW + centerW, area.y, rightW, area.h⟩
    let masterRect : Rect :=
      ⟨centerArea.x + pyDiv gap 2, centerArea.y + gap,
       centerArea.w - gap, centerArea.h - 2 * gap⟩
    let leftWindows0 := (List.range' 1 (count - 1)).filter fun i => i % 2 = 1
    let rightWindows0 := (List.range' 1 (count - 1)).filter fun i => i % 2 = 0
    let lr :=
      if rightWindows0 = [] ∧ 1 < leftWindows0.length then
        (leftWindows0.take (leftWindows0.length / 2),
         leftWindows0.drop (leftWindows0.length / 2))
      else (leftWindows0, rightWindows0)
    let leftWindows := lr.1
    let rightWindows := lr.2
    let slots0 : List (Option Rect) :=
      (List.replicate count (none : Option Rect)).set 0 (some masterRect)
    let leftRows := leftArea.sliceRows leftWindows.length
    let slots1 := slotsFold
      (threeColSideRect gap leftRows leftWindows.length gap)
      leftWindows.enum slots0
    let rightRows := rightArea.sliceRows rightWindows.length
    let slots2 := slotsFold
      (threeColSideRect gap rightRows rightWindows.length (pyDiv gap 2))
      rightWindows.enum slots1
    slots2.filterMap id

section LayoutLemmas

theorem pyTrunc_nonneg {q : ℚ} (h : 0 ≤ q) : 0 ≤ pyTrunc q := by
  rw [pyTrunc_eq_floor h]
  exact Int.floor_nonneg.mpr h

theorem pyTrunc_cast_le {q : ℚ} (h : 0 ≤ q) : (pyTrunc q : ℚ) ≤ q := by
  rw [pyTrunc_eq_floor h]
  exact Int.floor_le q

theorem pyTrunc_le_int {q : ℚ} {n : ℤ} (h0 : 0 ≤ q) (h : q ≤ (n : ℚ)) :
    pyTrunc q ≤ n := by
  have := (pyTrunc_cast_le h0).trans h
  exact_mod_cast this

theorem pyTrunc_mul_nonneg {w : ℤ} {ratio : ℚ} (hw : 0 ≤ w) (h0 : 0 ≤ ratio) :
    0 ≤ pyTrunc ((w : ℚ) * ratio) :=
  pyTrunc_nonneg (mul_nonneg (by exact_mod_cast hw) h0)

theorem pyTrunc_mul_le {w : ℤ} {ratio : ℚ} (hw : 0 ≤ w) (h0 : 0 ≤ ratio)
    (h1 : ratio ≤ 1) : pyTrunc ((w : ℚ) * ratio) ≤ w :=
  pyTrunc_le_int (mul_nonneg (by exact_mod_cast hw) h0)
    (by nlinarith [(by exact_mod_cast hw : (0 : ℚ) ≤ (w : ℚ))])

theorem pyDiv_zero_left (b : ℤ) : pyDiv 0 b = 0 := by
  simp [pyDiv, Int.zero_fdiv]

theorem pyDiv_nonneg {a b : ℤ} (ha : 0 ≤ a) (hb : 0 ≤ b) : 0 ≤ pyDiv a b :=
  Int.fdiv_nonneg ha hb

theorem Rect.sliceRows_length (r : Rect) (n : ℕ) : (r.sliceRows n).length = n := by
  unfold Rect.sliceRows
  split
  · simp [*]
  · split
    · simp [*]
    · simp

theorem Rect.sliceRows_mem {r : Rect} {n : ℕ} {row : Rect}
    (hm : row ∈ r.sliceRows n) : row.w = r.w ∧ (0 ≤ r.h → 0 ≤ row.h) := by
  unfold Rect.sliceRows at hm
  by_cases h0 : n = 0
  · simp [h0] at hm
  by_cases h1 : n = 1
  · simp [h0, h1] at hm
    subst hm
    exact ⟨rfl, fun h => h⟩
  simp only [h0, h1, if_false, List.mem_map, List.mem_range] at hm
  obtain ⟨i, hi, hrow⟩ := hm
  have hn : (0 : ℤ) < (n : ℤ) := by
    have : 2 ≤ n := by omega
    exact_mod_cast Nat.pos_of_ne_zero h0
  have hnne : (n : ℤ) ≠ 0 := ne_of_gt hn
  have hfd : ∀ hh : 0 ≤ r.h, pyDiv r.h n = r.h / (n : ℤ) := fun hh =>
    Int.fdiv_eq_ediv _ (le_of_lt hn)
  split at hrow
  · subst hrow
    refine ⟨rfl, fun hh => ?_⟩
    rw [hfd hh]
    exact Int.ediv_nonneg hh (le_of_lt hn)
  · subst hrow
    refine ⟨rfl, fun hh => ?_⟩
    rw [hfd hh]
    show (0 : ℤ) ≤ r.h - (i : ℤ) * (r.h / (n : ℤ))
    have hkey : r.h = (n : ℤ) * (r.h / (n : ℤ)) + r.h % (n : ℤ) :=
      (Int.ediv_add_emod r.h (n : ℤ)).symm
    have hmod : 0 ≤ r.h % (n : ℤ) := Int.emod_nonneg r.h hnne
    have hdnn : 0 ≤ r.h / (n : ℤ) := Int.ediv_nonneg hh (le_of_lt hn)
    have hii : (i : ℤ) ≤ (n : ℤ) - 1 := by
      have : i ≤ n - 1 := by omega
      omega
    nlinarith [mul_le_mul_of_nonneg_right hii hdnn]

theorem Rect.sliceColumns_length (r : Rect) (n : ℕ) :
    (r.sliceColumns n).length = n := by
  unfold Rect.sliceColumns
  split
  · simp [*]
  · split
    · simp [*]
    · simp

theorem Rect.sliceColumns_mem {r : Rect} {n : ℕ} {col : Rect}
    (hm : col ∈ r.sliceColumns n) : col.h = r.h ∧ (0 ≤ r.w → 0 ≤ col.w) := by
  unfold Rect.sliceColumns at hm
  by_cases h0 : n = 0
  · simp [h0] at hm
  by_cases h1 : n = 1
  · simp [h0, h1] at hm
    subst hm
    exact ⟨rfl, fun h => h⟩
  simp only [h0, h1, if_false, List.mem_map, List.mem_range] at hm
  obtain ⟨i, hi, hcol⟩ := hm
  have hn : (0 : ℤ) < (n : ℤ) := by exact_mod_cast Nat.pos_of_ne_zero h0
  have hnne : (n : ℤ) ≠ 0 := ne_of_gt hn
  have hfd : ∀ hh : 0 ≤ r.w, pyDiv r.w n = r.w / (n : ℤ) := fun hh =>
    Int.fdiv_eq_ediv _ (le_of_lt hn)
  split at hcol
  · subst hcol
    refine ⟨rfl, fun hh => ?_⟩
    rw [hfd hh]
    exact Int.ediv_nonneg hh (le_of_lt hn)
  · subst hcol
    refine ⟨rfl, fun hh => ?_⟩
    rw [hfd hh]
    show (0 : ℤ) ≤ r.w - (i : ℤ) * (r.w / (n : ℤ))
    have hkey : r.w = (n : ℤ) * (r.w / (n : ℤ)) + r.w % (n : ℤ) :=
      (Int.ediv_add_emod r.w (n : ℤ)).symm
    have hmod : 0 ≤ r.w % (n : ℤ) := Int.emod_nonneg r.w hnne
    have hdnn : 0 ≤ r.w / (n : ℤ) := Int.ediv_nonneg hh (le_of_lt hn)
    have hii : (i : ℤ) ≤ (n : ℤ) - 1 := by
      have : i ≤ n - 1 := by omega
      omega
    nlinarith [mul_le_mul_of_nonneg_right hii hdnn]

theorem Rect.pad_nonneg (r : Rect) (gap : ℤ) :
    0 ≤ (r.pad gap).w ∧ 0 ≤ (r.pad gap).h := by
  simp [Rect.pad, le_max_iff]

theorem slotsFold_nil (f : ℕ → Rect) (acc : List (Option Rect)) :
    slotsFold f [] acc = acc := rfl

theorem slotsFold_cons (f : ℕ → Rect) (p : ℕ × ℕ) (ps : List (ℕ × ℕ))
    (acc : List (Option Rect)) :
    slotsFold f (p :: ps) acc = slotsFold f ps (acc.set p.2 (some (f p.1))) :=
  rfl

theorem slotsFold_length (f : ℕ → Rect) (ps : List (ℕ × ℕ))
    (acc : List (Option Rect)) : (slotsFold f ps acc).length = acc.length := by
  induction ps generalizing acc with
  | nil => rfl
  | cons p ps ih => rw [slotsFold_cons, ih, List.length_set]

theorem slotsFold_mem {f : ℕ → Rect} {ps : List (ℕ × ℕ)}
    {acc : List (Option Rect)} {r : Rect} (h : some r ∈ slotsFold f ps acc) :
    some r ∈ acc ∨ ∃ i, r = f i := by
  induction ps generalizing acc with
  | nil => exact Or.inl h
  | cons p ps ih =>
    rw [slotsFold_cons] at h
    rcases ih h with h' | h'
    · rcases List.mem_or_eq_of_mem_set h' with h2 | h2
      · exact Or.inl h2
      · exact Or.inr ⟨p.1, Option.some.inj h2⟩
    · exact Or.inr h'

theorem slotsFold_isSome_of_before {f : ℕ → Rect} {ps : List (ℕ × ℕ)}
    {acc : List (Option Rect)} {j : ℕ}
    (h : ∃ r, acc[j]? = some (some r)) :
    ∃ r, (slotsFold f ps acc)[j]? = some (some r) := by
  induction ps generalizing acc with
  | nil => exact h
  | cons p ps ih =>
    rw [slotsFold_cons]
    apply ih
    by_cases hpj : p.2 = j
    · subst hpj
      obtain ⟨r, hr⟩ := h
      have hlen : p.2 < acc.length := by
        by_contra hc
        push_neg at hc
        rw [List.getElem?_eq_none hc] at hr
        cases hr
      exact ⟨f p.1, by rw [List.getElem?_set_self hlen]⟩
    · obtain ⟨r, hr⟩ := h
      exact ⟨r, by rw [List.getElem?_set_ne hpj]; exact hr⟩

theorem slotsFold_isSome_of_mem {f : ℕ → Rect} {ps : List (ℕ × ℕ)}
    {acc : List (Option Rect)} {j : ℕ}
    (hlen : j < acc.length) (hmem : j ∈ ps.map Prod.snd) :
    ∃ r, (slotsFold f ps acc)[j]? = some (some r) := by
  induction ps generalizing acc with
  | nil => simp at hmem
  | cons p ps ih =>
    rw [slotsFold_cons]
    rw [List.map_cons, List.mem_cons] at hmem
    rcases hmem with h | h
    · apply slotsFold_isSome_of_before
      subst h
      exact ⟨f p.1, by rw [List.getElem?_set_self hlen]⟩
    · exact ih (by rw [List.length_set]; exact hlen) h

theorem filterMap_id_length {α : Type _} (l : List (Option α))
    (h : ∀ o ∈ l, o.isSome = true) : (l.filterMap id).length = l.length := by
  induction l with
  | nil => rfl
  | cons o t ih =>
    cases o with
    | none => exact absurd (h none (List.mem_cons_self _ _)) (by simp)
    | some a =>
      simp only [List.filterMap_cons, id, List.length_cons]
      rw [ih fun o ho => h o (List.mem_cons_of_mem _ ho)]

theorem mem_some_of_mem_filterMap_id {α : Type _} {l : List (Option α)} {a : α}
    (h : a ∈ l.filterMap id) : some a ∈ l := by
  rcases List.mem_filterMap.mp h with ⟨o, ho, hoa⟩
  cases o with
  | none => cases hoa
  | some b => cases hoa; exact ho

theorem getD_mem_or_default {α : Type _} (l : List α) (j : ℕ) (d : α) :
    l.getD j d ∈ l ∨ l.getD j d = d := by
  by_cases hj : j < l.length
  · left
    rw [List.getD_eq_getElem l d hj]
    exact List.getElem_mem hj
  · right
    push_neg at hj
    rw [List.getD_eq_default l d hj]

/-- Membership coverage of the alternating partition of indices `1..count-1`
into the left (odd) and right (even) columns of `ThreeColumnLayout`. -/
theorem threeCol_cover {count j : ℕ} (h1 : 1 ≤ j) (h2 : j < count) :
    j ∈ (List.range' 1 (count - 1)).filter (fun i => i % 2 = 1) ∨
    j ∈ (List.range' 1 (count - 1)).filter (fun i => i % 2 = 0) := by
  have hj : j ∈ List.range' 1 (count - 1) := by
    rw [List.mem_range']
    exact ⟨j - 1, by omega, by omega⟩
  by_cases hp : j % 2 = 1
  · exact Or.inl (List.mem_filter.mpr ⟨hj, by simpa using hp⟩)
  · exact Or.inr (List.mem_filter.mpr ⟨hj, by simp; omega⟩)

theorem arrangeTall_length (ratio : ℚ) (gap : ℤ) (count : ℕ) (area : Rect) :
    (arrangeTall ratio gap count area).length = count := by
  unfold arrangeTall
  by_cases h0 : count = 0
  · simp [h0]
  by_cases h1 : count = 1
  · simp [h0, h1]
  simp only [h0, h1, if_false, List.length_cons, List.length_map,
    List.enum_length]
  rw [Rect.sliceRows_length]
  omega

theorem arrangeWide_length (ratio : ℚ) (gap : ℤ) (count : ℕ) (area : Rect) :
    (arrangeWide ratio gap count area).length = count := by
  unfold arrangeWide
  by_cases h0 : count = 0
  · simp [h0]
  by_cases h1 : count = 1
  · simp [h0, h1]
  simp only [h0, h1, if_false, List.length_cons, List.length_map,
    List.enum_length]
  rw [Rect.sliceColumns_length]
  omega

theorem arrangeMonocle_length (gap : ℤ) (count : ℕ) (area : Rect) :
    (arrangeMonocle gap count area).length = count := by
  unfold arrangeMonocle
  by_cases h0 : count = 0
  · simp [h0]
  · simp [h0]

theorem arrangeTall_nonneg {ratio : ℚ} {count : ℕ} {area : Rect}
    (h0 : 0 ≤ ratio) (h1 : ratio ≤ 1) (hw : 0 ≤ area.w) (hh : 0 ≤ area.h) :
    ∀ r ∈ arrangeTall ratio 0 count area, 0 ≤ r.w ∧ 0 ≤ r.h := by
  intro r hr
  unfold arrangeTall at hr
  by_cases hc0 : count = 0
  · simp [hc0] at hr
  by_cases hc1 : count = 1
  · simp [hc0, hc1] at hr
    subst hr
    exact area.pad_nonneg 0
  simp only [hc0, hc1, if_false, pyDiv_zero_left, Rect.splitHorizontal,
    sub_zero, mul_zero, zero_mul, ite_self, add_zero, List.mem_cons,
    List.mem_map] at hr
  rcases hr with hm | ⟨p, hp, hrect⟩
  · subst hm
    refine ⟨?_, by simpa using hh⟩
    simpa using pyTrunc_mul_nonneg hw h0
  · have hrow : p.2 ∈ Rect.sliceRows ⟨area.x + pyTrunc ((area.w : ℚ) * ratio),
        area.y, area.w - pyTrunc ((area.w : ℚ) * ratio), area.h⟩ (count - 1) := by
      rw [List.enum_eq_zip_range] at hp
      exact (List.of_mem_zip hp).2
    have hmem := Rect.sliceRows_mem hrow
    have hwr : 0 ≤ p.2.w := by
      rw [hmem.1]
      simpa using sub_nonneg.mpr (pyTrunc_mul_le hw h0 h1)
    have hhr : 0 ≤ p.2.h := hmem.2 (by simpa using hh)
    subst hrect
    constructor
    · simpa using hwr
    · simpa using hhr

theorem arrangeWide_nonneg {ratio : ℚ} {count : ℕ} {area : Rect}
    (h0 : 0 ≤ ratio) (h1 : ratio ≤ 1) (hw : 0 ≤ area.w) (hh : 0 ≤ area.h) :
    ∀ r ∈ arrangeWide ratio 0 count area, 0 ≤ r.w ∧ 0 ≤ r.h := by
  intro r hr
  unfold arrangeWide at hr
  by_cases hc0 : count = 0
  · simp [hc0] at hr
  by_cases hc1 : count = 1
  · simp [hc0, hc1] at hr
    subst hr
    exact area.pad_nonneg 0
  simp only [hc0, hc1, if_false, pyDiv_zero_left, Rect.splitVertical,
    sub_zero, mul_zero, zero_mul, ite_self, add_zero, List.mem_cons,
    List.mem_map] at hr
  rcases hr with hm | ⟨p, hp, hrect⟩
  · subst hm
    refine ⟨by simpa using hw, ?_⟩
    simpa using pyTrunc_mul_nonneg hh h0
  · have hcol : p.2 ∈ Rect.sliceColumns ⟨area.x,
        area.y + pyTrunc ((area.h : ℚ) * ratio), area.w,
        area.h - pyTrunc ((area.h : ℚ) * ratio)⟩ (count - 1) := by
      rw [List.enum_eq_zip_range] at hp
      exact (List.of_mem_zip hp).2
    have hmem := Rect.sliceColumns_mem hcol
    have hwc : 0 ≤ p.2.w := hmem.2 (by simpa using hw)
    have hhc : 0 ≤ p.2.h := by
      rw [hmem.1]
      simpa using sub_nonneg.mpr (pyTrunc_mul_le hh h0 h1)
    subst hrect
    constructor
    · simpa using hwc
    · simpa using hhc

theorem arrangeMonocle_nonneg {gap : ℤ} {count : ℕ} {area : Rect} :
    ∀ r ∈ arrangeMonocle gap count area, 0 ≤ r.w ∧ 0 ≤ r.h := by
  intro r hr
  unfold arrangeMonocle at hr
  by_cases hc0 : count = 0
  · simp [hc0] at hr
  · simp only [hc0, if_false] at hr
    rw [List.eq_of_mem_replicate hr]
    exact area.pad_nonneg gap

/-- Length of the slot pipeline of `ThreeColumnLayout.arrange` for `count ≥ 1`
when the indices `1..count-1` are covered by the two columns. -/
theorem slotsPipeline_length (count : ℕ) (hc : 1 ≤ count) (master : Rect)
    (lefts rights : List ℕ) (fL fR : ℕ → Rect)
    (hcover : ∀ j, 1 ≤ j → j < count → j ∈ lefts ∨ j ∈ rights) :
    ((slotsFold fR rights.enum
        (slotsFold fL lefts.enum
          ((List.replicate count (none : Option Rect)).set 0
            (some master)))).filterMap id).length = count := by
  set slots0 := (List.replicate count (none : Option Rect)).set 0 (some master)
    with hs0
  set slots2 := slotsFold fR rights.enum (slotsFold fL lefts.enum slots0)
    with hs2
  have hlen0 : slots0.length = count := by
    rw [hs0, List.length_set, List.length_replicate]
  have hlen1 : (slotsFold fL lefts.enum slots0).length = count := by
    rw [slotsFold_length, hlen0]
  have hlen2 : slots2.length = count := by
    rw [hs2, slotsFold_length, hlen1]
  rw [filterMap_id_length, hlen2]
  intro o ho
  rcases List.mem_iff_getElem.mp ho with ⟨j, hj, hoj⟩
  have hsome : ∃ r, slots2[j]? = some (some r) := by
    rw [hlen2] at hj
    by_cases hj0 : j = 0
    · subst hj0
      apply slotsFold_isSome_of_before
      apply slotsFold_isSome_of_before
      refine ⟨master, ?_⟩
      rw [hs0]
      rw [List.getElem?_set_self (by simpa using hc)]
    · rcases hcover j (by omega) hj with hmem | hmem
      · apply slotsFold_isSome_of_before
        exact slotsFold_isSome_of_mem (by rw [hlen0]; exact hj)
          (by rw [List.enum_map_snd]; exact hmem)
      · exact slotsFold_isSome_of_mem (by rw [hlen1]; exact hj)
          (by rw [List.enum_map_snd]; exact hmem)
  obtain ⟨r, hr⟩ := hsome
  rw [List.getElem?_eq_getElem hj, hoj] at hr
  rw [Option.some.inj hr]
  rfl

/-- Any member of the slot pipeline output is the master rect or one of the
side-column rects. -/
theorem slotsPipeline_mem {count : ℕ} {master : Rect} {lefts rights : List ℕ}
    {fL fR : ℕ → Rect} {r : Rect}
    (h : r ∈ (slotsFold fR rights.enum
        (slotsFold fL lefts.enum
          ((List.replicate count (none : Option Rect)).set 0
            (some master)))).filterMap id) :
    r = master ∨ (∃ i, r = fL i) ∨ (∃ i, r = fR i) := by
  have h1 := mem_some_of_mem_filterMap_id h
  rcases slotsFold_mem h1 with h2 | h2
  · rcases slotsFold_mem h2 with h3 | h3
    · rcases List.mem_or_eq_of_mem_set h3 with h4 | h4
      · exact absurd (List.eq_of_mem_replicate h4) (by simp)
      · exact Or.inl (Option.some.inj h4)
    · exact Or.inr (Or.inl h3)
  · exact Or.inr (Or.inr h2)

/-- Coverage of indices `1..count-1` by the final left/right column lists,
including the redistribution branch. -/
theorem threeCol_cover_lr {count j : ℕ} (h1 : 1 ≤ j) (h2 : j < count) :
    j ∈ (if ((List.range' 1 (count - 1)).filter (fun i => i % 2 = 0)) = [] ∧
            1 < ((List.range' 1 (count - 1)).filter (fun i => i % 2 = 1)).length
          then
            (((List.range' 1 (count - 1)).filter (fun i => i % 2 = 1)).take
              (((List.range' 1 (count - 1)).filter
                (fun i => i % 2 = 1)).length / 2),
             ((List.range' 1 (count - 1)).filter (fun i => i % 2 = 1)).drop
              (((List.range' 1 (count - 1)).filter
                (fun i => i % 2 = 1)).length / 2))
          else
            ((List.range' 1 (count - 1)).filter (fun i => i % 2 = 1),
             (List.range' 1 (count - 1)).filter (fun i => i % 2 = 0))).1 ∨
    j ∈ (if ((List.range' 1 (count - 1)).filter (fun i => i % 2 = 0)) = [] ∧
            1 < ((List.range' 1 (count - 1)).filter (fun i => i % 2 = 1)).length
          then
            (((List.range' 1 (count - 1)).filter (fun i => i % 2 = 1)).take
              (((List.range' 1 (count - 1)).filter
                (fun i => i % 2 = 1)).length / 2),
             ((List.range' 1 (count - 1)).filter (fun i => i % 2 = 1)).drop
              (((List.range' 1 (count - 1)).filter
                (fun i => i % 2 = 1)).length / 2))
          else
            ((List.range' 1 (count - 1)).filter (fun i => i % 2 = 1),
             (List.range' 1 (count - 1)).filter (fun i => i % 2 = 0))).2 := by
  have h := threeCol_cover h1 h2
  split
  · next hcond =>
    rcases h with h | h
    · have hsplit := List.take_append_drop
        ((((List.range' 1 (count - 1)).filter
          (fun i => i % 2 = 1)).length) / 2)
        ((List.range' 1 (count - 1)).filter (fun i => i % 2 = 1))
      rw [← hsplit] at h
      rcases List.mem_append.mp h with h' | h'
      · exact Or.inl h'
      · exact Or.inr h'
    · rw [hcond.1] at h
      cases h
  · exact h

/-- With `gap = 0` a side-column rect inherits the (non-negative) dimensions
of its row. -/
theorem threeColSideRect_nonneg {rows : List Rect} {nSide : ℕ} {xGap : ℤ}
    {i : ℕ} (hrows : ∀ row ∈ rows, 0 ≤ row.w ∧ 0 ≤ row.h) :
    0 ≤ (threeColSideRect 0 rows nSide xGap i).w ∧
    0 ≤ (threeColSideRect 0 rows nSide xGap i).h := by
  have hrow : 0 ≤ (rows.getD i ⟨0, 0, 0, 0⟩).w ∧
      0 ≤ (rows.getD i ⟨0, 0, 0, 0⟩).h := by
    rcases getD_mem_or_default rows i ⟨0, 0, 0, 0⟩ with hmem | hd
    · exact hrows _ hmem
    · rw [hd]
      exact ⟨le_refl 0, le_refl 0⟩
  unfold threeColSideRect
  constructor
  · simpa [pyDiv_zero_left] using hrow.1
  · simpa [pyDiv_zero_left, ite_self] using hrow.2

theorem threeCol_rightW_nonneg {w : ℤ} {ratio : ℚ} (hw : 0 ≤ w)
    (h0 : 0 ≤ ratio) (h1 : ratio ≤ 1) :
    0 ≤ w - pyTrunc ((w : ℚ) * ((1 - ratio) / 2)) -
      pyTrunc ((w : ℚ) * ratio) := by
  have hq : (0 : ℚ) ≤ (w : ℚ) := by exact_mod_cast hw
  have hs : (0 : ℚ) ≤ (1 - ratio) / 2 := by linarith
  have hA := pyTrunc_cast_le (mul_nonneg hq hs)
  have hB := pyTrunc_cast_le (mul_nonneg hq h0)
  have hsum : (pyTrunc ((w : ℚ) * ((1 - ratio) / 2)) : ℚ) +
      (pyTrunc ((w : ℚ) * ratio) : ℚ) ≤ (w : ℚ) := by nlinarith
  have hz : pyTrunc ((w : ℚ) * ((1 - ratio) / 2)) +
      pyTrunc ((w : ℚ) * ratio) ≤ w := by exact_mod_cast hsum
  omega

theorem arrangeThreeColumn_length (ratio : ℚ) (gap : ℤ) (count : ℕ)
    (area : Rect) :
    (arrangeThreeColumn ratio gap count area).length = count := by
  unfold arrangeThreeColumn
  by_cases h0 : count = 0
  · simp [h0]
  by_cases h1 : count = 1
  · simp [h0, h1]
  by_cases h2 : count = 2
  · simp [h0, h1, h2]
  simp only [h0, h1, h2, if_false]
  exact slotsPipeline_length count (by omega) _ _ _ _ _
    (fun j hj1 hj2 => threeCol_cover_lr hj1 hj2)

theorem arrangeThreeColumn_nonneg {ratio : ℚ} {count : ℕ} {area : Rect}
    (h0 : 0 ≤ ratio) (h1 : ratio ≤ 1) (hw : 0 ≤ area.w) (hh : 0 ≤ area.h) :
    ∀ r ∈ arrangeThreeColumn ratio 0 count area, 0 ≤ r.w ∧ 0 ≤ r.h := by
  intro r hr
  unfold arrangeThreeColumn at hr
  by_cases hc0 : count = 0
  · simp [hc0] at hr
  by_cases hc1 : count = 1
  · simp [hc0, hc1] at hr
    subst hr
    exact area.pad_nonneg 0
  by_cases hc2 : count = 2
  · subst hc2
    simp [Rect.splitHorizontal, pyDiv_zero_left] at hr
    rcases hr with hm | hm
    · subst hm
      exact ⟨pyTrunc_mul_nonneg hw h0, hh⟩
    · subst hm
      exact ⟨sub_nonneg.mpr (pyTrunc_mul_le hw h0 h1), hh⟩
  simp only [hc0, hc1, hc2, if_false] at hr
  have hcases := slotsPipeline_mem hr
  have hleftW : 0 ≤ pyTrunc ((area.w : ℚ) * ((1 - ratio) / 2)) :=
    pyTrunc_mul_nonneg hw (by linarith)
  have hcenterW : 0 ≤ pyTrunc ((area.w : ℚ) * ratio) :=
    pyTrunc_mul_nonneg hw h0
  have hrightW := threeCol_rightW_nonneg hw h0 h1
  rcases hcases with hm | hm | hm
  · subst hm
    constructor
    · simpa [pyDiv_zero_left] using hcenterW
    · simpa using hh
  · obtain ⟨i, hi⟩ := hm
    subst hi
    apply threeColSideRect_nonneg
    intro row hrow
    have hmem := Rect.sliceRows_mem hrow
    exact ⟨by rw [hmem.1]; exact hleftW, hmem.2 hh⟩
  · obtain ⟨i, hi⟩ := hm
    subst hi
    apply threeColSideRect_nonneg
    intro row hrow
    have hmem := Rect.sliceRows_mem hrow
    exact ⟨by rw [hmem.1]; exact hrightW, hmem.2 hh⟩

end LayoutLemmas

/-- The four layout variants of `layouts.py`. -/
inductive LayoutKind
  | tall
  | wide
  | monocle
  | threeColumn
  deriving DecidableEq, Repr

/-- Dispatch of `Layout.arrange` over the four variants. -/
def arrange : LayoutKind → ℚ → ℤ → ℕ → Rect → List Rect
  | .tall, ratio, gap, count, area => arrangeTall ratio gap count area
  | .wide, ratio, gap, count, area => arrangeWide ratio gap count area
  | .monocle, _, gap, count, area => arrangeMonocle gap count area
  | .threeColumn, ratio, gap, count, area => arrangeThreeColumn ratio gap count area

/-- Concrete evaluation of `TallLayout.arrange` with the default parameters
(`master_ratio = 0.55`, `gap = 4`) on a 1×1 area: both returned rects have
negative dimensions. -/
theorem arrangeTall_default_1x1 : arrangeTall (11/20) 4 2 ⟨0, 0, 1, 1⟩ =
    [⟨4, 4, -6, -7⟩, ⟨2, 4, -5, -7⟩] := by
  simp [arrangeTall, Rect.splitHorizontal, Rect.sliceRows, pyTrunc_def', pyDiv,
    Rect.pad, List.enum]
  norm_num

/-- C1 (counterexample): with the default layout parameters
(`master_ratio = 0.55`, `gap = 4`), `TallLayout.arrange(2, Rect(0,0,1,1))` —
a Rect with positive `w` and `h` — returns a rect with negative width, so the
claim that every returned Rect has non-negative `w` and `h` is false. -/
theorem C1_counterexample :
    ¬ ∀ r ∈ arrangeTall (11/20) 4 2 ⟨0, 0, 1, 1⟩, 0 ≤ r.w ∧ 0 ≤ r.h := by
  intro hAll
  have hmem : (⟨4, 4, -6, -7⟩ : Rect) ∈ arrangeTall (11/20) 4 2 ⟨0, 0, 1, 1⟩ := by
    rw [arrangeTall_default_1x1]
    exact List.mem_cons_self _ _
  have h := (hAll _ hmem).1
  norm_num at h

/-- C1 (amended): for every layout (Tall, Wide, Monocle, ThreeColumn), every
count `N ≥ 0`, every area and every clamped master ratio, `arrange` returns a
list of exactly `N` rects; and when the gap is `0` and the area has
non-negative dimensions, every returned rect has non-negative `w` and `h`
(with a positive gap the subtraction of gaps can make dimensions negative on
small areas, as the counterexample shows). -/
theorem C1_arrange_totality (k : LayoutKind) (ratio : ℚ) (gap : ℤ)
    (count : ℕ) (area : Rect) (h0 : 0 ≤ ratio) (h1 : ratio ≤ 1) :
    (arrange k ratio gap count area).length = count ∧
    (gap = 0 → 0 ≤ area.w → 0 ≤ area.h →
      ∀ r ∈ arrange k ratio gap count area, 0 ≤ r.w ∧ 0 ≤ r.h) := by
  cases k with
  | tall =>
    refine ⟨arrangeTall_length ratio gap count area, fun hg hw hh => ?_⟩
    subst hg
    exact arrangeTall_nonneg h0 h1 hw hh
  | wide =>
    refine ⟨arrangeWide_length ratio gap count area, fun hg hw hh => ?_⟩
    subst hg
    exact arrangeWide_nonneg h0 h1 hw hh
  | monocle =>
    exact ⟨arrangeMonocle_length gap count area,
      fun _ _ _ => arrangeMonocle_nonneg⟩
  | threeColumn =>
    refine ⟨arrangeThreeColumn_length ratio gap count area, fun hg hw hh => ?_⟩
    subst hg
    exact arrangeThreeColumn_nonneg h0 h1 hw hh

/-- Witness for C1: the amended totality theorem applied at the ThreeColumn
layout with ratio 1/2, gap 0, 5 windows on a 100×60 area. -/
theorem C1_witness :
    (arrange .threeColumn (1/2) 0 5 ⟨0, 0, 100, 60⟩).length = 5 ∧
    ((0 : ℤ) = 0 → (0 : ℤ) ≤ (100 : ℤ) → (0 : ℤ) ≤ (60 : ℤ) →
      ∀ r ∈ arrange .threeColumn (1/2) 0 5 ⟨0, 0, 100, 60⟩,
        0 ≤ r.w ∧ 0 ≤ r.h) :=
  C1_arrange_totality .threeColumn (1/2) 0 5 ⟨0, 0, 100, 60⟩
    (by norm_num) (by norm_num)

/-! ## Layout parameter state (`Layout.__init__`, setters, step operations) -/

/-- The mutable parameter state every layout carries
(`Layout._master_ratio`, `Layout._gap`). -/
structure LayoutParams where
  masterRatio : ℚ
  gap : ℤ
  deriving DecidableEq, Repr

/-- `Layout.__init__`: clamps `master_ratio` to [0.1, 0.9] and `gap` to ≥ 0. -/
def mkLayoutParams (masterRatio : ℚ) (gap : ℤ) : LayoutParams :=
  ⟨max (1/10) (min (9/10) masterRatio), max 0 gap⟩

/-- The `master_ratio` property setter (re-clamps). -/
def LayoutParams.setMasterRatio (p : LayoutParams) (v : ℚ) : LayoutParams :=
  { p with masterRatio := max (1/10) (min (9/10) v) }

/-- The `gap` property setter (re-clamps). -/
def LayoutParams.setGap (p : LayoutParams) (v : ℤ) : LayoutParams :=
  { p with gap := max 0 v }

/-- `Layout.grow_master` with the default step 0.05. -/
def LayoutParams.growMaster (p : LayoutParams) : LayoutParams :=
  p.setMasterRatio (p.masterRatio + 1/20)

/-- `Layout.shrink_master` with the default step 0.05. -/
def LayoutParams.shrinkMaster (p : LayoutParams) : LayoutParams :=
  p.setMasterRatio (p.masterRatio - 1/20)

/-- `Layout.increase_gap` with the default step 2. -/
def LayoutParams.increaseGap (p : LayoutParams) : LayoutParams :=
  p.setGap (p.gap + 2)

/-- `Layout.decrease_gap` with the default step 2. -/
def LayoutParams.decreaseGap (p : LayoutParams) : LayoutParams :=
  p.setGap (p.gap - 2)

/-- Parameters of a freshly constructed layout: `Layout.__init__` defaults
`master_ratio=0.55, gap=4`; `ThreeColumnLayout.__init__` overrides the
default `master_ratio` to 0.50. -/
def defaultParams : LayoutKind → LayoutParams
  | .threeColumn => mkLayoutParams (1/2) 4
  | _ => mkLayoutParams (11/20) 4

/-- The four interactive adjustment operations. -/
inductive LayoutOp
  | growMaster
  | shrinkMaster
  | increaseGap
  | decreaseGap
  deriving DecidableEq, Repr

def applyLayoutOp (p : LayoutParams) : LayoutOp → LayoutParams
  | .growMaster => p.growMaster
  | .shrinkMaster => p.shrinkMaster
  | .increaseGap => p.increaseGap
  | .decreaseGap => p.decreaseGap

/-- The clamping invariant on layout parameters. -/
def LayoutParams.Clamped (p : LayoutParams) : Prop :=
  1/10 ≤ p.masterRatio ∧ p.masterRatio ≤ 9/10 ∧ 0 ≤ p.gap

theorem mkLayoutParams_clamped (r : ℚ) (g : ℤ) :
    (mkLayoutParams r g).Clamped := by
  refine ⟨le_max_left _ _, ?_, le_max_left _ _⟩
  apply max_le (by norm_num)
  exact min_le_left _ _

theorem applyLayoutOp_clamped {p : LayoutParams} (hp : p.Clamped)
    (op : LayoutOp) : (applyLayoutOp p op).Clamped := by
  obtain ⟨h1, h2, h3⟩ := hp
  cases op with
  | growMaster =>
    refine ⟨le_max_left _ _, ?_, h3⟩
    exact max_le (by norm_num) (min_le_left _ _)
  | shrinkMaster =>
    refine ⟨le_max_left _ _, ?_, h3⟩
    exact max_le (by norm_num) (min_le_left _ _)
  | increaseGap => exact ⟨h1, h2, le_max_left _ _⟩
  | decreaseGap => exact ⟨h1, h2, le_max_left _ _⟩

theorem foldl_applyLayoutOp_clamped {p : LayoutParams} (hp : p.Clamped)
    (ops : List LayoutOp) : (ops.foldl applyLayoutOp p).Clamped := by
  induction ops generalizing p with
  | nil => exact hp
  | cons op ops ih => exact ih (applyLayoutOp_clamped hp op)

/-- C8 (counterexample): `ThreeColumnLayout()` is constructed with
`master_ratio = 0.50`, not `0.55` as the claim states for every layout. -/
theorem C8_counterexample :
    ¬ ((defaultParams .threeColumn).masterRatio = 11/20) := by
  norm_num [defaultParams, mkLayoutParams]

/-- C8 (amended): Tall, Wide, and Monocle default to `master_ratio = 0.55`;
ThreeColumn defaults to `0.50`; all default to `gap = 4`; and after any
sequence of grow/shrink-master (±0.05) and increase/decrease-gap (±2)
operations, `master_ratio` lies in [0.1, 0.9] and `gap ≥ 0`. -/
theorem C8_params_defaults_and_invariant (k : LayoutKind)
    (ops : List LayoutOp) :
    defaultParams .tall = ⟨11/20, 4⟩ ∧
    defaultParams .wide = ⟨11/20, 4⟩ ∧
    defaultParams .monocle = ⟨11/20, 4⟩ ∧
    defaultParams .threeColumn = ⟨1/2, 4⟩ ∧
    (1/10 ≤ (ops.foldl applyLayoutOp (defaultParams k)).masterRatio ∧
     (ops.foldl applyLayoutOp (defaultParams k)).masterRatio ≤ 9/10 ∧
     0 ≤ (ops.foldl applyLayoutOp (defaultParams k)).gap) := by
  have hdef : ∀ k' : LayoutKind, (defaultParams k').Clamped := fun k' => by
    cases k' <;> exact mkLayoutParams_clamped _ _
  refine ⟨?_, ?_, ?_, ?_, foldl_applyLayoutOp_clamped (hdef k) ops⟩
  · simp only [defaultParams, mkLayoutParams]
    norm_num
  · simp only [defaultParams, mkLayoutParams]
    norm_num
  · simp only [defaultParams, mkLayoutParams]
    norm_num
  · simp only [defaultParams, mkLayoutParams]
    norm_num

/-! ## Window fullscreen protocol (`core/window.py`) -/

/-- OS-side state of a single window handle: the values `GetWindowLong`,
`GetWindowRect`, `IsIconic`, `IsZoomed` and `IsWindow` would report.  `rect`
is `(left, top, right, bottom)`.  `normalRect` is the rect the OS gives the
window on `ShowWindow(SW_RESTORE)`. -/
structure WinEnv where
  valid : Bool
  style : ℤ
  exStyle : ℤ
  rect : ℤ × ℤ × ℤ × ℤ
  minimized : Bool
  maximized : Bool
  normalRect : ℤ × ℤ × ℤ × ℤ
  deriving DecidableEq, Repr

/-- The mutable WM-side state stored in `Window.__slots__`: the fullscreen
flag and the saved style/ex-style/rect. -/
structure WindowSt where
  fullscreen : Bool
  savedStyle : ℤ
  savedExStyle : ℤ
  savedRect : ℤ × ℤ × ℤ × ℤ
  deriving DecidableEq, Repr

/-- `SetWindowPos(hwnd, x, y, w, h)`: the window rect becomes
`(x, y, x + w, y + h)`. -/
def osSetWindowPos (env : WinEnv) (x y w h : ℤ) : WinEnv :=
  { env with rect := (x, y, x + w, y + h) }

/-- `ShowWindow(SW_RESTORE)`: clears minimized/maximized and restores the
normal rect. -/
def osRestore (env : WinEnv) : WinEnv :=
  { env with minimized := false, maximized := false, rect := env.normalRect }

/-- `SetWindowLong(GWL_STYLE, s)`. -/
def osSetStyle (env : WinEnv) (s : ℤ) : WinEnv := { env with style := s }

/-- `SetWindowLong(GWL_EXSTYLE, s)`. -/
def osSetExStyle (env : WinEnv) (s : ℤ) : WinEnv := { env with exStyle := s }

/-- Python `s & ~m` on ints. -/
def stripBits (s m : ℤ) : ℤ := Int.land s (Int.not m)

def WS_CAPTION : ℤ := 0x00C00000
def WS_THICKFRAME : ℤ := 0x00040000
def WS_EX_DLGMODALFRAME : ℤ := 0x00000001
def WS_EX_WINDOWEDGE : ℤ := 0x00000100
def WS_EX_CLIENTEDGE : ℤ := 0x00000200
def WS_EX_STATICEDGE : ℤ := 0x00020000

/-- `Window._FS_STYLE_MASK`. -/
def fsStyleMask : ℤ := Int.lor WS_CAPTION WS_THICKFRAME

/-- `Window._FS_EX_STYLE_MASK`. -/
def fsExStyleMask : ℤ :=
  Int.lor (Int.lor (Int.lor WS_EX_DLGMODALFRAME WS_EX_WINDOWEDGE)
    WS_EX_CLIENTEDGE) WS_EX_STATICEDGE

/-- `Window.enter_fullscreen(monitor_x, monitor_y, monitor_w, monitor_h)`:
returns the success flag, the new WM-side window state and the new OS
state. -/
def enterFullscreen (w : WindowSt) (env : WinEnv) (mx my mw mh : ℤ) :
    Bool × WindowSt × WinEnv :=
  if w.fullscreen then (false, w, env)
  else if !env.valid then (false, w, env)
  else
    let savedStyle := env.style
    let savedExStyle := env.exStyle
    let savedRect := env.rect
    let env1 := if env.minimized || env.maximized then osRestore env else env
    let env2 := osSetStyle env1 (stripBits savedStyle fsStyleMask)
    let env3 := osSetExStyle env2 (stripBits savedExStyle fsExStyleMask)
    let env4 := osSetWindowPos env3 mx my mw mh
    (true, ⟨true, savedStyle, savedExStyle, savedRect⟩, env4)

/-- `Window.exit_fullscreen()`. -/
def exitFullscreen (w : WindowSt) (env : WinEnv) : Bool × WindowSt × WinEnv :=
  if !w.fullscreen then (false, w, env)
  else if !env.valid then (false, { w with fullscreen := false }, env)
  else
    let env1 := osSetStyle env w.savedStyle
    let env2 := osSetExStyle env1 w.savedExStyle
    let l := w.savedRect.1
    let t := w.savedRect.2.1
    let r := w.savedRect.2.2.1
    let b := w.savedRect.2.2.2
    let env3 := osSetWindowPos env2 l t (r - l) (b - t)
    (true, { w with fullscreen := false }, env3)

/-- The fullscreen/tileable partition at the start of `Workspace.retile`:
the source loops over `self._tiled_windows` appending to `fullscreen_wins`
or `tileable_wins`, which is an order-preserving partition by the
`is_fullscreen` flag. -/
def retileSplit (tiled : List WindowSt) : List WindowSt × List WindowSt :=
  (tiled.filter (fun w => w.fullscreen),
   tiled.filter (fun w => !w.fullscreen))

/-- C5: for a valid window not in fullscreen, `enter_fullscreen` then
`exit_fullscreen` both succeed and return style, ex_style and rect to
exactly their pre-enter values, leaving the fullscreen flag cleared. -/
theorem C5_fullscreen_roundtrip (w : WindowSt) (env : WinEnv)
    (mx my mw mh : ℤ) (hfs : w.fullscreen = false) (hv : env.valid = true) :
    (enterFullscreen w env mx my mw mh).1 = true ∧
    (exitFullscreen (enterFullscreen w env mx my mw mh).2.1
      (enterFullscreen w env mx my mw mh).2.2).1 = true ∧
    (exitFullscreen (enterFullscreen w env mx my mw mh).2.1
      (enterFullscreen w env mx my mw mh).2.2).2.2.style = env.style ∧
    (exitFullscreen (enterFullscreen w env mx my mw mh).2.1
      (enterFullscreen w env mx my mw mh).2.2).2.2.exStyle = env.exStyle ∧
    (exitFullscreen (enterFullscreen w env mx my mw mh).2.1
      (enterFullscreen w env mx my mw mh).2.2).2.2.rect = env.rect ∧
    (exitFullscreen (enterFullscreen w env mx my mw mh).2.1
      (enterFullscreen w env mx my mw mh).2.2).2.1.fullscreen = false := by
  obtain ⟨v, st, ex, re, mi, ma, nr⟩ := env
  obtain ⟨l, t, r, b⟩ := re
  have hv' : v = true := hv
  subst hv'
  cases mi <;> cases ma <;>
    simp [enterFullscreen, exitFullscreen, osSetStyle, osSetExStyle,
      osSetWindowPos, osRestore, hfs, Prod.ext_iff]

/-- Witness for C5: the round-trip theorem applied to a concrete valid,
non-fullscreen window. -/
theorem C5_witness :
    (exitFullscreen
      (enterFullscreen ⟨false, 0, 0, (0, 0, 0, 0)⟩
        ⟨true, 13565952, 256, (10, 20, 300, 260), false, false,
          (10, 20, 300, 260)⟩ 0 0 800 600).2.1
      (enterFullscreen ⟨false, 0, 0, (0, 0, 0, 0)⟩
        ⟨true, 13565952, 256, (10, 20, 300, 260), false, false,
          (10, 20, 300, 260)⟩ 0 0 800 600).2.2).2.2.rect =
      (10, 20, 300, 260) :=
  (C5_fullscreen_roundtrip ⟨false, 0, 0, (0, 0, 0, 0)⟩
    ⟨true, 13565952, 256, (10, 20, 300, 260), false, false,
      (10, 20, 300, 260)⟩ 0 0 800 600 (by decide) (by decide)).2.2.2.2.1

/-- C10: calling `exit_fullscreen` on a window whose fullscreen flag is set
but whose OS handle is no longer valid returns `False`, performs no OS style
or position call (the OS state is untouched), yet clears the fullscreen
flag — so the partition at the start of `Workspace.retile` files the window
under the tileable windows, not the fullscreen ones. -/
theorem C10_exit_dead_handle (w : WindowSt) (env : WinEnv)
    (hfs : w.fullscreen = true) (hv : env.valid = false) :
    exitFullscreen w env = (false, { w with fullscreen := false }, env) ∧
    retileSplit [(exitFullscreen w env).2.1] =
      ([], [{ w with fullscreen := false }]) := by
  have h1 : exitFullscreen w env =
      (false, { w with fullscreen := false }, env) := by
    simp [exitFullscreen, hfs, hv]
  refine ⟨h1, ?_⟩
  rw [h1]
  simp [retileSplit]

/-- Witness for C10 at a concrete dead-handle fullscreen window. -/
theorem C10_witness :
    exitFullscreen ⟨true, 5, 7, (1, 2, 3, 4)⟩
        ⟨false, 0, 0, (0, 0, 0, 0), false, false, (0, 0, 0, 0)⟩ =
      (false, ⟨false, 5, 7, (1, 2, 3, 4)⟩,
        ⟨false, 0, 0, (0, 0, 0, 0), false, false, (0, 0, 0, 0)⟩) :=
  (C10_exit_dead_handle ⟨true, 5, 7, (1, 2, 3, 4)⟩
    ⟨false, 0, 0, (0, 0, 0, 0), false, false, (0, 0, 0, 0)⟩
    (by decide) (by decide)).1

/-! ## The managed-window filter (`core/filter.py`) -/

/-- The per-window OS reads that `is_manageable` consumes, at the level of
the `Window` property API of `core/window.py` (`is_child`,
`is_tool_window`, `is_app_window`, `is_no_activate` are the style/ex-style
bit reads `WS_CHILD`, `WS_EX_TOOLWINDOW`, `WS_EX_APPWINDOW`,
`WS_EX_NOACTIVATE`).  `rect` is `(left, top, right, bottom)`;
`width`/`height` are derived exactly as in `Window.width`/`Window.height`. -/
structure WindowProps where
  hwnd : ℕ
  valid : Bool
  visible : Bool
  cloaked : Bool
  isChild : Bool
  className : String
  processName : String
  title : String
  isToolWindow : Bool
  isAppWindow : Bool
  isNoActivate : Bool
  rect : ℤ × ℤ × ℤ × ℤ
  shellHwnd : ℕ
  desktopHwnd : ℕ
  deriving DecidableEq, Repr

/-- `Window.width`: right − left. -/
def WindowProps.width (p : WindowProps) : ℤ := p.rect.2.2.1 - p.rect.1

/-- `Window.height`: bottom − top. -/
def WindowProps.height (p : WindowProps) : ℤ := p.rect.2.2.2 - p.rect.2.1

/-- `IGNORED_CLASSES` from `core/filter.py`. -/
def ignoredClasses : List String :=
  ["Shell_TrayWnd", "Shell_SecondaryTrayWnd", "Progman", "WorkerW",
   "DV2ControlHost", "Windows.UI.Core.CoreWindow",
   "NotifyIconOverflowWindow", "TopLevelWindowForOverflowXamlIsland",
   "Shell_InputSwitchTopLevelWindow", "MultitaskingViewFrame",
   "TaskListThumbnailWnd", "ForegroundStaging", "EdgeUiInputTopWndClass",
   "EdgeUiInputWndClass", "NativeHWNDHost", "tooltips_class32", "IME",
   "MSCTFIME UI", "#32768", "#32769", "#32770", "TaskManagerWindow"]

/-- `IGNORED_PROCESSES` from `core/filter.py`. -/
def ignoredProcesses : List String :=
  ["SearchUI.exe", "SearchHost.exe", "ShellExperienceHost.exe",
   "StartMenuExperienceHost.exe", "TextInputHost.exe", "LockApp.exe",
   "ScreenClippingHost.exe", "GameBar.exe", "GameBarFTServer.exe"]

/-- `IGNORED_TITLES` from `core/filter.py`. -/
def ignoredTitles : List String :=
  ["", "Program Manager", "Windows Shell Experience Host",
   "Microsoft Text Input Application", "Windows Input Experience",
   "NVIDIA GeForce Overlay", "Setup"]

/-- `is_manageable(window)` from `core/filter.py`: the eleven rules in
source order.  Note rule 9 in the source is
`if window.width <= 0 and window.height <= 0: return False` — a
conjunction, not a disjunction. -/
def isManageable (p : WindowProps) : Bool :=
  if !p.valid then false
  else if !p.visible then false
  else if p.cloaked then false
  else if p.isChild then false
  else if p.className ∈ ignoredClasses then false
  else if p.processName ∈ ignoredProcesses then false
  else if p.title ∈ ignoredTitles then false
  else if p.isToolWindow && !p.isAppWindow then false
  else if p.isNoActivate then false
  else if p.width ≤ 0 ∧ p.height ≤ 0 then false
  else if p.hwnd = p.shellHwnd ∨ p.hwnd = p.desktopHwnd then false
  else true

/-- `WindowManager._manage(hwnd)` with the filter spelled out: returns the
newly managed handle (or `none`) and the new key set of `_windows`. -/
def manageWith (p : WindowProps) (windows : List ℕ) : Option ℕ × List ℕ :=
  if p.hwnd ∈ windows then (none, windows)
  else if !(isManageable p) then (none, windows)
  else (some p.hwnd, windows ++ [p.hwnd])

/-- C9 (counterexample): a window whose reported width is zero but whose
height is 300 passes the filter (rule 9 only rejects when width ≤ 0 AND
height ≤ 0), contradicting the claim that a zero width alone is rejected. -/
theorem C9_counterexample :
    (⟨100, true, true, false, false, "Notepad", "notepad.exe", "App",
      false, false, false, (0, 0, 0, 300), 1, 2⟩ : WindowProps).width = 0 ∧
    isManageable ⟨100, true, true, false, false, "Notepad", "notepad.exe",
      "App", false, false, false, (0, 0, 0, 300), 1, 2⟩ = true := by
  constructor
  · decide
  · decide

set_option maxHeartbeats 2000000 in
/-- C9 (amended): a window whose reported width and height are BOTH
non-positive is rejected by the filter pipeline, and `_manage` never adds
it to the managed set. -/
theorem C9_zero_size_filtered (p : WindowProps) (ws : List ℕ)
    (hw : p.width ≤ 0) (hh : p.height ≤ 0) :
    isManageable p = false ∧ manageWith p ws = (none, ws) := by
  have hfalse : isManageable p = false := by
    unfold isManageable
    split_ifs <;> first
      | rfl
      | exact absurd (And.intro hw hh) (by assumption)
  refine ⟨hfalse, ?_⟩
  by_cases hmem : p.hwnd ∈ ws
  · simp [manageWith, hmem]
  · simp [manageWith, hmem, hfalse]

/-- Witness for C9 at a concrete 0×0 window. -/
theorem C9_witness :
    isManageable ⟨100, true, true, false, false, "Notepad", "notepad.exe",
      "App", false, false, false, (0, 0, 0, 0), 1, 2⟩ = false ∧
    manageWith ⟨100, true, true, false, false, "Notepad", "notepad.exe",
      "App", false, false, false, (0, 0, 0, 0), 1, 2⟩ [7] = (none, [7]) :=
  C9_zero_size_filtered ⟨100, true, true, false, false, "Notepad",
    "notepad.exe", "App", false, false, false, (0, 0, 0, 0), 1, 2⟩ [7]
    (by decide) (by decide)

/-! ## Combined event pump / workspace manager transition system

Shallow embedding of the membership state of `core/manager.py`
(`WindowManager`), `tiling/workspace_manager.py` (`WorkspaceManager`),
`tiling/workspace.py` (`Workspace`) and the event wiring of
`sauliethwm/__main__.py` (`create_workspace_handler`).  Windows are
identified by their handle (a `ℕ`), exactly as the Python code compares
`Window` objects (equality and hashing are on the hwnd alone).  Geometry —
rects, saved positions, layout state, retiles, z-order — is not observable
by any of the membership/suppression claims and is omitted: `retile`,
`hide_all_windows` and `show_all_windows` mutate no window list and no
tracking structure. -/

/-- One `Workspace`: its id, tiled and floating window lists and active
flag. -/
structure Ws where
  id : ℕ
  tiled : List ℕ
  floating : List ℕ
  active : Bool
  deriving DecidableEq, Repr

/-- `Workspace.all_windows`: tiled + floating. -/
def Ws.allWindows (ws : Ws) : List ℕ := ws.tiled ++ ws.floating

/-- `Workspace.contains`. -/
def Ws.contains (ws : Ws) (h : ℕ) : Bool :=
  ws.tiled.contains h || ws.floating.contains h

/-- `Workspace.add_window` (append; refuse when already contained). -/
def Ws.addWindow (ws : Ws) (h : ℕ) (floating : Bool) : Ws × Bool :=
  if ws.contains h then (ws, false)
  else if floating then ({ ws with floating := ws.floating ++ [h] }, true)
  else ({ ws with tiled := ws.tiled ++ [h] }, true)

/-- `Workspace.remove_window` (`list.remove` removes the first
occurrence). -/
def Ws.removeWindow (ws : Ws) (h : ℕ) : Ws × Bool :=
  if ws.tiled.contains h then ({ ws with tiled := ws.tiled.erase h }, true)
  else if ws.floating.contains h then
    ({ ws with floating := ws.floating.erase h }, true)
  else (ws, false)

/-- Python `set.add` / dict-key insert on a duplicate-free list. -/
def insertUnique (l : List ℕ) (h : ℕ) : List ℕ :=
  if h ∈ l then l else l ++ [h]

/-- `set.update`: insert many. -/
def insertUniqueAll (l : List ℕ) (hs : List ℕ) : List ℕ :=
  hs.foldl insertUnique l

/-- The events `WindowManager` emits (`WMEvent`). -/
inductive WMEvent
  | windowAdded
  | windowRemoved
  | focusChanged
  | windowMinimized
  | windowRestored
  | windowMoved
  | titleChanged
  deriving DecidableEq, Repr

/-- One emission to subscribers. -/
abbrev Emission := WMEvent × ℕ

/-- Combined system state:

* `managed`, `focused`, `suppress`, `suppressed` — `WindowManager._windows`
  (key list, insertion-ordered), `_focused`, `_suppress_hide_show`,
  `_suppressed_hwnds`;
* `workspaces`, `monitorWs`, `monitorCount` — `WorkspaceManager._workspaces`
  (insertion-ordered, ids 1..N), `_monitor_ws` (keys are the contiguous
  indices `0..len-1`, so a plain list), `len(self._monitors)`;
* `minimizedOrigins` — the `_minimized_origins` dict of the
  `create_workspace_handler` closure in `__main__.py`;
* `wmAttached` — whether `set_window_manager` was called;
* `valid`, `manageable`, `nativeFs` — the OS environment: handles for which
  `IsWindow`, `is_manageable`, and `is_native_fullscreen` currently hold. -/
structure Sys where
  managed : List ℕ
  focused : Option ℕ
  suppress : Bool
  suppressed : List ℕ
  workspaces : List Ws
  monitorWs : List ℕ
  monitorCount : ℕ
  minimizedOrigins : List (ℕ × ℕ)
  wmAttached : Bool
  valid : List ℕ
  manageable : List ℕ
  nativeFs : List ℕ
  deriving DecidableEq, Repr

/-- `WorkspaceManager.get_workspace` (dict lookup by id). -/
def Sys.getWs (s : Sys) (wsId : ℕ) : Option Ws :=
  s.workspaces.find? (fun ws => ws.id == wsId)

/-- Dict-value update at `wsId` (ids are unique keys). -/
def Sys.updateWs (s : Sys) (wsId : ℕ) (f : Ws → Ws) : Sys :=
  { s with workspaces :=
      s.workspaces.map (fun ws => if ws.id == wsId then f ws else ws) }

/-- `Workspace.is_active` setter through the manager. -/
def Sys.setWsActive (s : Sys) (wsId : ℕ) (b : Bool) : Sys :=
  s.updateWs wsId (fun ws => { ws with active := b })

/-- `WorkspaceManager.get_active_ws_id`: `self._monitor_ws.get(mi, 1)`. -/
def Sys.getActiveWsId (s : Sys) (mi : ℕ) : ℕ := s.monitorWs.getD mi 1

/-- `WorkspaceManager.get_monitor_for_workspace`: first monitor showing
`wsId`. -/
def Sys.getMonitorForWs (s : Sys) (wsId : ℕ) : Option ℕ :=
  s.monitorWs.findIdx? (fun w => w == wsId)

/-- `WorkspaceManager.find_window_workspace`. -/
def Sys.findWs (s : Sys) (h : ℕ) : Option Ws :=
  s.workspaces.find? (fun ws => ws.contains h)

/-- `WorkspaceManager._suppress_events` (guarded on the attached
`WindowManager`). -/
def Sys.suppressEvents (s : Sys) : Sys :=
  if s.wmAttached then { s with suppress := true } else s

/-- `WorkspaceManager._resume_events`. -/
def Sys.resumeEvents (s : Sys) : Sys :=
  if s.wmAttached then { s with suppress := false } else s

/-- `WorkspaceManager._register_suppressed_hwnds`: collect the valid
handles of the given workspaces into `suppressed_hwnds`. -/
def Sys.registerSuppressed (s : Sys) (wss : List Ws) : Sys :=
  if s.wmAttached then
    let hwnds := wss.foldl
      (fun acc ws => acc ++ ws.allWindows.filter (fun h => s.valid.contains h))
      []
    { s with suppressed := insertUniqueAll s.suppressed hwnds }
  else s

/-- `WorkspaceManager._ensure_windows_tracked`: re-register every valid
window of the workspace in `_windows`, then drop the stale (invalid)
windows from the workspace.  (The source collects `stale` and re-registers
in one loop and removes afterwards; the two passes are equivalent.) -/
def ensureTrackedCore (s : Sys) (wsId : ℕ) (ws : Ws) : Sys :=
  let managed2 := ws.allWindows.foldl
    (fun m h => if s.valid.contains h then insertUnique m h else m)
    s.managed
  let stale := ws.allWindows.filter (fun h => !(s.valid.contains h))
  let s1 := { s with managed := managed2 }
  stale.foldl
    (fun st h => st.updateWs wsId (fun w => (w.removeWindow h).1)) s1

def Sys.ensureTracked (s : Sys) (wsId : ℕ) : Sys :=
  if s.wmAttached then
    match s.getWs wsId with
    | none => s
    | some ws => ensureTrackedCore s wsId ws
  else s

/-- `WorkspaceManager.add_window` (monitor 0, tiled), as invoked by the
`WINDOW_ADDED` handler.  The native-fullscreen geometry test against the
monitor's full rect is the environment fact `nativeFs`.  Retiling has no
membership effect. -/
def Sys.wsmAddWindow (s : Sys) (h : ℕ) : Sys × Bool :=
  if s.workspaces.any (fun ws => ws.contains h) then (s, false)
  else if s.nativeFs.contains h then (s, false)
  else
    let wsId := s.getActiveWsId 0
    match s.getWs wsId with
    | none => (s, false)
    | some ws =>
      let r := ws.addWindow h false
      if r.2 then (s.updateWs wsId (fun _ => r.1), true) else (s, false)

/-- `WorkspaceManager.remove_window`: remove from the first workspace that
holds the window. -/
def removeFirstWs (wss : List Ws) (h : ℕ) : List Ws × Bool :=
  match wss with
  | [] => ([], false)
  | ws :: rest =>
    let r := ws.removeWindow h
    if r.2 then (r.1 :: rest, true)
    else
      let r2 := removeFirstWs rest h
      (ws :: r2.1, r2.2)

def Sys.wsmRemoveWindow (s : Sys) (h : ℕ) : Sys × Bool :=
  let r := removeFirstWs s.workspaces h
  ({ s with workspaces := r.1 }, r.2)

/-- Dict get + pop for `_minimized_origins`. -/
def popAssoc (l : List (ℕ × ℕ)) (k : ℕ) : Option ℕ × List (ℕ × ℕ) :=
  match l.find? (fun p => p.1 == k) with
  | some p => (some p.2, l.filter (fun q => !(q.1 == k)))
  | none => (none, l)

/-- Dict set for `_minimized_origins`. -/
def setAssoc (l : List (ℕ × ℕ)) (k v : ℕ) : List (ℕ × ℕ) :=
  if l.any (fun p => p.1 == k) then
    l.map (fun p => if p.1 == k then (k, v) else p)
  else l ++ [(k, v)]

/-- The `workspace_handler` subscriber of `__main__.py`
(`create_workspace_handler`), dispatched synchronously by
`WindowManager._emit`.  `WINDOW_RESTORED`'s inactive-origin branch hides
the window under suppression (`_suppress_events` … `_resume_events`),
whose net tracking effect is `suppress := false` at the end. -/
def Sys.wsHandler (s : Sys) (ev : WMEvent) (h : ℕ) : Sys :=
  match ev with
  | .windowAdded => (s.wsmAddWindow h).1
  | .windowRemoved =>
    match s.findWs h with
    | some ws => if !ws.active then s else (s.wsmRemoveWindow h).1
    | none => (s.wsmRemoveWindow h).1
  | .windowRestored =>
    match s.findWs h with
    | some _ => s
    | none =>
      let p := popAssoc s.minimizedOrigins h
      let s1 := { s with minimizedOrigins := p.2 }
      match p.1 with
      | some originId =>
        match s1.getWs originId with
        | some target =>
          let s2 := s1.updateWs originId (fun ws => (ws.addWindow h false).1)
          if target.active then s2 else (s2.suppressEvents).resumeEvents
        | none => (s1.wsmAddWindow h).1
      | none => (s1.wsmAddWindow h).1
  | .windowMinimized =>
    let s1 :=
      match s.findWs h with
      | some ws => { s with minimizedOrigins := setAssoc s.minimizedOrigins h ws.id }
      | none => s
    (s1.wsmRemoveWindow h).1
  | _ => s

/-- `WindowManager._manage`: insert into `_windows` when manageable, emit
`WINDOW_ADDED` (which runs the workspace handler synchronously). -/
def Sys.manage (s : Sys) (h : ℕ) : Sys × List Emission :=
  if h ∈ s.managed then (s, [])
  else if !(s.manageable.contains h) then (s, [])
  else
    let s1 := { s with managed := s.managed ++ [h] }
    (s1.wsHandler .windowAdded h, [(.windowAdded, h)])

/-- `WindowManager._unmanage`: pop from `_windows`, clear focus if needed,
emit `WINDOW_REMOVED`. -/
def Sys.unmanage (s : Sys) (h : ℕ) : Sys × List Emission :=
  if h ∈ s.managed then
    let s1 := { s with managed := s.managed.erase h }
    let s2 := if s1.focused = some h then { s1 with focused := none } else s1
    (s2.wsHandler .windowRemoved h, [(.windowRemoved, h)])
  else (s, [])

/-- `WindowManager._handle_show`. -/
def Sys.handleShow (s : Sys) (h : ℕ) : Sys × List Emission :=
  if s.suppress then (s, [])
  else if h ∈ s.suppressed then ({ s with suppressed := s.suppressed.erase h }, [])
  else s.manage h

/-- `WindowManager._handle_hide`. -/
def Sys.handleHide (s : Sys) (h : ℕ) : Sys × List Emission :=
  if s.suppress then (s, [])
  else if h ∈ s.suppressed then ({ s with suppressed := s.suppressed.erase h }, [])
  else s.unmanage h

/-- `WindowManager._handle_destroy`: always drops the handle from the
one-shot set; during suppression pops `_windows` silently (no emission). -/
def Sys.handleDestroy (s : Sys) (h : ℕ) : Sys × List Emission :=
  let s0 := { s with suppressed := s.suppressed.erase h }
  if s0.suppress then
    if h ∈ s0.managed then
      let s1 := { s0 with managed := s0.managed.erase h }
      (if s1.focused = some h then { s1 with focused := none } else s1, [])
    else (s0, [])
  else s0.unmanage h

/-- `WindowManager._handle_foreground`: note the one-shot check does NOT
discard the handle (`if hwnd in self._suppressed_hwnds: return`). -/
def Sys.handleForeground (s : Sys) (h : ℕ) : Sys × List Emission :=
  if s.suppress then (s, [])
  else if h ∈ s.suppressed then (s, [])
  else
    let r1 := if h ∉ s.managed then s.manage h else (s, [])
    let s1 := r1.1
    if h ∈ s1.managed ∧ s1.focused ≠ some h then
      let s2 := { s1 with focused := some h }
      (s2.wsHandler .focusChanged h, r1.2 ++ [(.focusChanged, h)])
    else (s1, r1.2)

/-- `WindowManager._handle_minimize`. -/
def Sys.handleMinimize (s : Sys) (h : ℕ) : Sys × List Emission :=
  if s.suppress then (s, [])
  else if h ∈ s.suppressed then ({ s with suppressed := s.suppressed.erase h }, [])
  else if h ∈ s.managed then
    (s.wsHandler .windowMinimized h, [(.windowMinimized, h)])
  else (s, [])

/-- `WindowManager._handle_restore`. -/
def Sys.handleRestore (s : Sys) (h : ℕ) : Sys × List Emission :=
  if s.suppress then (s, [])
  else if h ∈ s.suppressed then ({ s with suppressed := s.suppressed.erase h }, [])
  else
    let r1 := if h ∉ s.managed then s.manage h else (s, [])
    let s1 := r1.1
    if h ∈ s1.managed then
      (s1.wsHandler .windowRestored h, r1.2 ++ [(.windowRestored, h)])
    else (s1, r1.2)

/-- The non-swap tail of `WorkspaceManager.switch_workspace`: suppress,
register both workspaces' handles, hide current (no membership effect),
deactivate current, show target, activate target, ensure target tracked,
resume, update the monitor map.  Retile and the workspace-changed
callbacks (print-only) have no membership effect.  A failed dict lookup
(impossible for well-formed ids) aborts with the state untouched. -/
def Sys.normalSwitch (s : Sys) (targetWsId mi currentWsId : ℕ) : Sys × Bool :=
  match s.getWs currentWsId, s.getWs targetWsId with
  | some curWs, some tgtWs =>
    let s1 := s.suppressEvents
    let s2 := s1.registerSuppressed [curWs, tgtWs]
    let s3 := s2.setWsActive currentWsId false
    let s4 := s3.setWsActive targetWsId true
    let s5 := s4.ensureTracked targetWsId
    let s6 := s5.resumeEvents
    ({ s6 with monitorWs := s6.monitorWs.set mi targetWsId }, true)
  | _, _ => (s, false)

/-- `WorkspaceManager._swap_workspaces_between_monitors`.  In the source
`ws_a_id`/`ws_b_id` are bound first; here they are written out inline
(`s.monitorWs.getD ma 1`, `s.monitorWs.getD mb 1`). -/
def Sys.swapWorkspaces (s : Sys) (ma mb : ℕ) : Sys × Bool :=
  match s.getWs (s.monitorWs.getD ma 1), s.getWs (s.monitorWs.getD mb 1) with
  | some wsA, some wsB =>
    let s1 := s.suppressEvents
    let s2 := s1.registerSuppressed [wsA, wsB]
    let newMon := (s2.monitorWs.set ma (s.monitorWs.getD mb 1)).set mb
      (s.monitorWs.getD ma 1)
    let s3 := { s2 with monitorWs := newMon }
    let s4 := s3.ensureTracked (s.monitorWs.getD ma 1)
    let s5 := s4.ensureTracked (s.monitorWs.getD mb 1)
    (s5.resumeEvents, true)
  | _, _ => (s, false)

/-- `WorkspaceManager.switch_workspace(target_ws_id, monitor_index)`. -/
def Sys.switchWorkspace (s : Sys) (targetWsId mi : ℕ) : Sys × Bool :=
  if !(s.workspaces.any (fun ws => ws.id == targetWsId)) then (s, false)
  else if mi < s.monitorWs.length then
    let currentWsId := s.monitorWs.getD mi 1
    if currentWsId == targetWsId then (s, false)
    else
      match s.getMonitorForWs targetWsId with
      | some tm =>
        if tm ≠ mi then s.swapWorkspaces mi tm
        else s.normalSwitch targetWsId mi currentWsId
      | none => s.normalSwitch targetWsId mi currentWsId
  else (s, false)

/-- `WorkspaceManager.move_window_to_workspace(window, target_ws_id)`:
pre-register the handle in the one-shot set, remove from the source,
add to the target; when the target is inactive, hide the window under
suppression and re-insert it into `_windows`. -/
def moveWindowCore (s : Sys) (h targetWsId srcId : ℕ)
    (targetActive : Bool) : Sys × Bool :=
  let s1 := if s.wmAttached then
      { s with suppressed := insertUnique s.suppressed h } else s
  let s2 := s1.updateWs srcId (fun ws => (ws.removeWindow h).1)
  let s3 := s2.updateWs targetWsId (fun ws => (ws.addWindow h false).1)
  if targetActive then (s3, true)
  else
    let s4 := (s3.suppressEvents).resumeEvents
    let s5 := if s4.wmAttached ∧ h ∈ s4.valid then
        { s4 with managed := insertUnique s4.managed h } else s4
    (s5, true)

def Sys.moveWindow (s : Sys) (h : ℕ) (targetWsId : ℕ) : Sys × Bool :=
  match s.getWs targetWsId with
  | none => (s, false)
  | some targetWs =>
    if targetWs.contains h then (s, false)
    else
      match s.findWs h with
      | none => (s, false)
      | some sourceWs => moveWindowCore s h targetWsId sourceWs.id targetWs.active

/-- `WorkspaceManager.move_window_to_next_monitor`. -/
def Sys.moveToNextMonitor (s : Sys) (h : ℕ) : Sys × Bool :=
  if s.monitorCount < 2 then (s, false)
  else
    match s.findWs h with
    | none => (s, false)
    | some sourceWs =>
      match s.getMonitorForWs sourceWs.id with
      | none => (s, false)
      | some smi =>
        let nmi := (smi + 1) % s.monitorCount
        let targetWsId := s.getActiveWsId nmi
        let s1 := s.updateWs sourceWs.id (fun ws => (ws.removeWindow h).1)
        let s2 := s1.updateWs targetWsId (fun ws => (ws.addWindow h false).1)
        (s2, true)

/-- `WorkspaceManager.refresh_monitors` when the OS reports `k` monitors:
monitors with index ≥ k are popped from the map and their workspaces
deactivated and hidden (under suppression).  `k = 0` aborts. -/
def Sys.refreshMonitors (s : Sys) (k : ℕ) : Sys :=
  if k = 0 then s
  else
    let s1 := { s with monitorCount := k }
    let poppedIds := s1.monitorWs.drop k
    let s2 := s1.suppressEvents
    let s3 := poppedIds.foldl (fun st wsId => st.setWsActive wsId false) s2
    let s4 := { s3 with monitorWs := s3.monitorWs.take k }
    s4.resumeEvents

/-- `WorkspaceManager.restore_all_windows` (shutdown): only OS-geometry
work under suppression; the net tracking effect is releasing the gate. -/
def Sys.restoreAll (s : Sys) : Sys := (s.suppressEvents).resumeEvents

/-- One window of `WindowManager._scan_existing`: unconditional dict
insert followed by the `WINDOW_ADDED` emission. -/
def Sys.scanWindow (s : Sys) (h : ℕ) : Sys :=
  let s1 := { s with managed := insertUnique s.managed h }
  s1.wsHandler .windowAdded h

/-- `Workspace.swap_master` on workspace `wsId`. -/
def Sys.wsSwapMaster (s : Sys) (wsId : ℕ) : Sys :=
  s.updateWs wsId (fun ws =>
    match ws.tiled with
    | a :: b :: rest => { ws with tiled := b :: a :: rest }
    | _ => ws)

/-- `Workspace.rotate_next`: last tiled window becomes master. -/
def Sys.wsRotateNext (s : Sys) (wsId : ℕ) : Sys :=
  s.updateWs wsId (fun ws =>
    if ws.tiled.length < 2 then ws
    else { ws with tiled := ws.tiled.getLast?.toList ++ ws.tiled.dropLast })

/-- `Workspace.rotate_prev`: master goes to the end. -/
def Sys.wsRotatePrev (s : Sys) (wsId : ℕ) : Sys :=
  s.updateWs wsId (fun ws =>
    if ws.tiled.length < 2 then ws
    else { ws with tiled := ws.tiled.drop 1 ++ ws.tiled.take 1 })

/-- `WorkspaceManager.__init__(workspace_count, monitors)` together with a
fresh `WindowManager` and the handler wiring of `__main__.py`:
workspaces 1..N, monitor `i` assigned workspace `i+1`, falling back to
workspace 1 when `i + 1 > N`; each assigned workspace activated. -/
def initSys (workspaceCount monitorCount : ℕ)
    (valid manageable nativeFs : List ℕ) : Sys :=
  let workspaces := (List.range workspaceCount).map
    (fun i => Ws.mk (i + 1) [] [] false)
  let monitorWs := (List.range monitorCount).map
    (fun i => if i + 1 > workspaceCount then 1 else i + 1)
  let activated := monitorWs.foldl
    (fun wss wsId => wss.map
      (fun ws => if ws.id == wsId then { ws with active := true } else ws))
    workspaces
  { managed := [], focused := none, suppress := false, suppressed := [],
    workspaces := activated, monitorWs := monitorWs,
    monitorCount := monitorCount, minimizedOrigins := [],
    wmAttached := false, valid := valid, manageable := manageable,
    nativeFs := nativeFs }

/-- One step of the combined system: an OS event arriving at the pump, a
workspace-manager operation invoked from the command layer, the wiring
call `set_window_manager`, one initial-scan insertion, or an environment
change (windows appearing, dying, or changing their filter/native-
fullscreen status). -/
inductive Step : Sys → Sys → Prop
  | attach (s : Sys) : Step s { s with wmAttached := true }
  | evShow (s : Sys) (h : ℕ) : Step s (s.handleShow h).1
  | evHide (s : Sys) (h : ℕ) : Step s (s.handleHide h).1
  | evDestroy (s : Sys) (h : ℕ) : Step s (s.handleDestroy h).1
  | evForeground (s : Sys) (h : ℕ) : Step s (s.handleForeground h).1
  | evMinimize (s : Sys) (h : ℕ) : Step s (s.handleMinimize h).1
  | evRestore (s : Sys) (h : ℕ) : Step s (s.handleRestore h).1
  | scan (s : Sys) (h : ℕ) : Step s (s.scanWindow h)
  | opAdd (s : Sys) (h : ℕ) : Step s (s.wsmAddWindow h).1
  | opRemove (s : Sys) (h : ℕ) : Step s (s.wsmRemoveWindow h).1
  | opSwitch (s : Sys) (t mi : ℕ) : Step s (s.switchWorkspace t mi).1
  | opMove (s : Sys) (h t : ℕ) : Step s (s.moveWindow h t).1
  | opMoveNext (s : Sys) (h : ℕ) : Step s (s.moveToNextMonitor h).1
  | opRefresh (s : Sys) (k : ℕ) : Step s (s.refreshMonitors k)
  | opRestoreAll (s : Sys) : Step s s.restoreAll
  | opSwapMaster (s : Sys) (wsId : ℕ) : Step s (s.wsSwapMaster wsId)
  | opRotateNext (s : Sys) (wsId : ℕ) : Step s (s.wsRotateNext wsId)
  | opRotatePrev (s : Sys) (wsId : ℕ) : Step s (s.wsRotatePrev wsId)
  | env (s : Sys) (v m nf : List ℕ) :
      Step s { s with valid := v, manageable := m, nativeFs := nf }

/-- States reachable from a freshly constructed system with `N`
workspaces and `M` monitors. -/
inductive Reachable (N M : ℕ) : Sys → Prop
  | init (v m nf : List ℕ) : Reachable N M (initSys N M v m nf)
  | step {s s' : Sys} : Reachable N M s → Step s s' → Reachable N M s'

/-- C3: while the global `suppress_hide_show` flag is set, hide, show,
foreground, minimize and restore events are complete no-ops: no emission
reaches any subscriber and the state — in particular the managed set and
every workspace's window lists — is unchanged. -/
theorem C3_suppression_noop (s : Sys) (h : ℕ) (hs : s.suppress = true) :
    s.handleShow h = (s, []) ∧ s.handleHide h = (s, []) ∧
    s.handleForeground h = (s, []) ∧ s.handleMinimize h = (s, []) ∧
    s.handleRestore h = (s, []) := by
  refine ⟨?_, ?_, ?_, ?_, ?_⟩ <;>
    simp [Sys.handleShow, Sys.handleHide, Sys.handleForeground,
      Sys.handleMinimize, Sys.handleRestore, hs]

/-- Witness for C3 on a concrete suppressed state. -/
theorem C3_witness :
    Sys.handleShow ⟨[4], none, true, [], [], [1], 1, [], true, [4], [4], []⟩ 4 =
      (⟨[4], none, true, [], [], [1], 1, [], true, [4], [4], []⟩, []) :=
  (C3_suppression_noop ⟨[4], none, true, [], [], [1], 1, [], true, [4], [4], []⟩
    4 rfl).1

/-- C4 (counterexample): with the global flag cleared and handle 5 in the
one-shot set, a foreground event for 5 is absorbed (no emission, state
unchanged) but 5 is NOT removed from the set — `_handle_foreground`
returns without discarding — so the absorption is not one-shot for
foreground events, contrary to the claim. -/
theorem C4_counterexample :
    Sys.handleForeground
      ⟨[], none, false, [5], [], [1], 1, [], true, [5], [5], []⟩ 5 =
      (⟨[], none, false, [5], [], [1], 1, [], true, [5], [5], []⟩, []) ∧
    5 ∈ (Sys.handleForeground
      ⟨[], none, false, [5], [], [1], 1, [], true, [5], [5], []⟩ 5).1.suppressed := by
  constructor
  · decide
  · decide

/-- C4 (amended): with the global flag cleared, a hide, show, minimize or
restore event for a registered handle is absorbed — no emission, no
manage/unmanage, only the handle's removal from the one-shot set — and
since the handle is gone, a second matching event is processed normally.
A foreground event for a registered handle is also absorbed, but leaves
the set unchanged (the entry is not consumed). -/
theorem C4_one_shot (s : Sys) (h : ℕ) (hs : s.suppress = false)
    (hmem : h ∈ s.suppressed) (hnd : s.suppressed.Nodup) :
    (s.handleShow h = ({ s with suppressed := s.suppressed.erase h }, []) ∧
     s.handleHide h = ({ s with suppressed := s.suppressed.erase h }, []) ∧
     s.handleMinimize h =
       ({ s with suppressed := s.suppressed.erase h }, []) ∧
     s.handleRestore h =
       ({ s with suppressed := s.suppressed.erase h }, []) ∧
     h ∉ s.suppressed.erase h) ∧
    s.handleForeground h = (s, []) := by
  refine ⟨⟨?_, ?_, ?_, ?_, hnd.not_mem_erase⟩, ?_⟩ <;>
    simp [Sys.handleShow, Sys.handleHide, Sys.handleMinimize,
      Sys.handleRestore, Sys.handleForeground, hs, hmem]

/-- Witness for C4 on a concrete state with handle 5 registered. -/
theorem C4_witness :
    Sys.handleHide ⟨[], none, false, [5], [], [1], 1, [], true, [5], [5], []⟩ 5 =
      (⟨[], none, false, [], [], [1], 1, [], true, [5], [5], []⟩, []) :=
  ((C4_one_shot ⟨[], none, false, [5], [], [1], 1, [], true, [5], [5], []⟩ 5
    rfl (by decide) (by decide)).1).2.1

/-- C7 (counterexample): with 2 workspaces and 4 monitors, monitor 3 is
initially assigned workspace 1, not workspace `(3 mod 2) + 1 = 2` as the
claim states. -/
theorem C7_counterexample :
    ¬ ((initSys 2 4 [] [] []).monitorWs.getD 3 1 = 3 % 2 + 1) := by
  decide

/-- C7 (amended): at construction with `N` workspaces and `M` monitors,
monitor `i` is assigned workspace `i + 1` when `i + 1 ≤ N`, and workspace
1 otherwise (`ws_id = i + 1; if ws_id > workspace_count: ws_id = 1`). -/
theorem C7_initial_assignment (N M : ℕ) (v m nf : List ℕ) (i : ℕ)
    (hi : i < M) :
    (initSys N M v m nf).monitorWs.getD i 1 =
      if i + 1 > N then 1 else i + 1 := by
  show (((List.range M).map
    (fun i => if i + 1 > N then 1 else i + 1)).getD i 1) = _
  rw [List.getD_eq_getElem _ _ (by simpa using hi)]
  simp

/-- Witness for C7: monitor 3 of 4 with 2 workspaces gets workspace 1. -/
theorem C7_witness :
    (initSys 2 4 [] [] []).monitorWs.getD 3 1 =
      if 3 + 1 > 2 then 1 else 3 + 1 :=
  C7_initial_assignment 2 4 [] [] [] 3 (by decide)

section TrackingLemmas

theorem insertUnique_self (l : List ℕ) (h : ℕ) : h ∈ insertUnique l h := by
  unfold insertUnique
  split
  · assumption
  · simp

theorem insertUnique_mono {l : List ℕ} {x : ℕ} (h : ℕ) (hx : x ∈ l) :
    x ∈ insertUnique l h := by
  unfold insertUnique
  split
  · assumption
  · simp [hx]

/-- The re-registration fold of `_ensure_windows_tracked` only grows the
key set. -/
theorem trackFold_mono (valid : List ℕ) (xs : List ℕ) (m : List ℕ) {x : ℕ}
    (hx : x ∈ m) :
    x ∈ xs.foldl
      (fun m h => if valid.contains h then insertUnique m h else m) m := by
  induction xs generalizing m with
  | nil => exact hx
  | cons y ys ih =>
    simp only [List.foldl_cons]
    apply ih
    split
    · exact insertUnique_mono y hx
    · exact hx

/-- The re-registration fold inserts every valid listed handle. -/
theorem trackFold_tracks (valid : List ℕ) (xs : List ℕ) (m : List ℕ) {x : ℕ}
    (hx : x ∈ xs) (hv : valid.contains x = true) :
    x ∈ xs.foldl
      (fun m h => if valid.contains h then insertUnique m h else m) m := by
  induction xs generalizing m with
  | nil => simp at hx
  | cons y ys ih =>
    simp only [List.foldl_cons]
    rcases List.mem_cons.mp hx with rfl | hx'
    · rw [if_pos hv]
      exact trackFold_mono valid ys _ (insertUnique_self m x)
    · exact ih _ hx'

theorem find?_map_ite (l : List Ws) (wsId idB : ℕ) (f : Ws → Ws)
    (hf : ∀ ws, (f ws).id = ws.id) :
    (l.map (fun ws => if ws.id == wsId then f ws else ws)).find?
        (fun ws => ws.id == idB) =
      (l.find? (fun ws => ws.id == idB)).map
        (fun ws => if ws.id == wsId then f ws else ws) := by
  induction l with
  | nil => rfl
  | cons w t ih =>
    have hid : (if w.id == wsId then f w else w).id = w.id := by
      split
      · rw [hf]
      · rfl
    simp only [List.map_cons, List.find?_cons, hid]
    by_cases hw : (w.id == idB) = true
    · simp only [hw]
      rfl
    · simp only [Bool.of_not_eq_true hw]
      exact ih

theorem getWs_updateWs (s : Sys) (wsId : ℕ) (f : Ws → Ws)
    (hf : ∀ ws, (f ws).id = ws.id) (idB : ℕ) :
    (s.updateWs wsId f).getWs idB =
      (s.getWs idB).map (fun ws => if ws.id == wsId then f ws else ws) :=
  find?_map_ite s.workspaces wsId idB f hf

/-- Projections untouched by `updateWs`. -/
theorem updateWs_fields (s : Sys) (wsId : ℕ) (f : Ws → Ws) :
    (s.updateWs wsId f).managed = s.managed ∧
    (s.updateWs wsId f).valid = s.valid ∧
    (s.updateWs wsId f).wmAttached = s.wmAttached ∧
    (s.updateWs wsId f).monitorWs = s.monitorWs ∧
    (s.updateWs wsId f).suppress = s.suppress := ⟨rfl, rfl, rfl, rfl, rfl⟩

/-- The stale-removal fold of `_ensure_windows_tracked` leaves every
field except `workspaces` untouched. -/
theorem foldRemove_fields (xs : List ℕ) (wsId : ℕ) (s : Sys) :
    (xs.foldl (fun st h => st.updateWs wsId
        (fun w => (w.removeWindow h).1)) s).managed = s.managed ∧
    (xs.foldl (fun st h => st.updateWs wsId
        (fun w => (w.removeWindow h).1)) s).valid = s.valid ∧
    (xs.foldl (fun st h => st.updateWs wsId
        (fun w => (w.removeWindow h).1)) s).wmAttached = s.wmAttached ∧
    (xs.foldl (fun st h => st.updateWs wsId
        (fun w => (w.removeWindow h).1)) s).monitorWs = s.monitorWs := by
  induction xs generalizing s with
  | nil => exact ⟨rfl, rfl, rfl, rfl⟩
  | cons y ys ih =>
    simp only [List.foldl_cons]
    exact ih _

theorem removeWindow_id (ws : Ws) (h : ℕ) : ((ws.removeWindow h).1).id = ws.id := by
  unfold Ws.removeWindow
  split
  · rfl
  · split <;> rfl

theorem removeWindow_allWindows_subset (ws : Ws) (h : ℕ) :
    ∀ x ∈ ((ws.removeWindow h).1).allWindows, x ∈ ws.allWindows := by
  intro x hx
  unfold Ws.removeWindow at hx
  unfold Ws.allWindows at hx ⊢
  split at hx
  · simp only [List.mem_append] at hx ⊢
    rcases hx with hx | hx
    · exact Or.inl (List.mem_of_mem_erase hx)
    · exact Or.inr hx
  · split at hx
    · simp only [List.mem_append] at hx ⊢
      rcases hx with hx | hx
      · exact Or.inl hx
      · exact Or.inr (List.mem_of_mem_erase hx)
    · exact hx

/-- After the stale-removal fold, the workspace's windows are a subset of
what they were before the fold. -/
theorem foldRemove_getWs_subset (xs : List ℕ) (wsId : ℕ) (s : Sys) :
    ∀ w', ((xs.foldl (fun st h => st.updateWs wsId
        (fun w => (w.removeWindow h).1)) s).getWs wsId = some w') →
      ∃ w, s.getWs wsId = some w ∧
        ∀ x ∈ w'.allWindows, x ∈ w.allWindows := by
  induction xs generalizing s with
  | nil =>
    intro w' hw'
    exact ⟨w', hw', fun x hx => hx⟩
  | cons y ys ih =>
    intro w' hw'
    simp only [List.foldl_cons] at hw'
    obtain ⟨w1, hw1, hsub1⟩ := ih _ w' hw'
    rw [getWs_updateWs _ _ _ (fun ws => removeWindow_id ws y)] at hw1
    cases hws : s.getWs wsId with
    | none => rw [hws] at hw1; cases hw1
    | some w0 =>
      rw [hws] at hw1
      simp only [Option.map_some'] at hw1
      refine ⟨w0, rfl, fun x hx => ?_⟩
      have hx1 := hsub1 x hx
      rw [← Option.some.inj hw1] at hx1
      split at hx1
      · exact removeWindow_allWindows_subset w0 y x hx1
      · exact hx1

/-- `ensureTrackedCore` only grows `_windows` and touches no other
tracking field. -/
theorem ensureTrackedCore_fields (s : Sys) (wsId : ℕ) (ws : Ws) :
    (∀ x ∈ s.managed, x ∈ (ensureTrackedCore s wsId ws).managed) ∧
    (ensureTrackedCore s wsId ws).valid = s.valid ∧
    (ensureTrackedCore s wsId ws).wmAttached = s.wmAttached ∧
    (ensureTrackedCore s wsId ws).monitorWs = s.monitorWs := by
  have hf := foldRemove_fields
    (ws.allWindows.filter (fun h => !(s.valid.contains h))) wsId
    { s with managed := (ws.allWindows.foldl
        (fun m h => if s.valid.contains h then insertUnique m h else m)
        s.managed) }
  refine ⟨fun x hx => ?_, hf.2.1, hf.2.2.1, hf.2.2.2⟩
  show x ∈ (List.foldl _ _ _ : Sys).managed
  rw [hf.1]
  exact trackFold_mono s.valid ws.allWindows s.managed hx

/-- `_ensure_windows_tracked` only grows `_windows` and touches no other
tracking field. -/
theorem ensureTracked_fields (s : Sys) (wsId : ℕ) :
    (∀ x ∈ s.managed, x ∈ (s.ensureTracked wsId).managed) ∧
    (s.ensureTracked wsId).valid = s.valid ∧
    (s.ensureTracked wsId).wmAttached = s.wmAttached ∧
    (s.ensureTracked wsId).monitorWs = s.monitorWs := by
  by_cases hwm : s.wmAttached = true
  · cases hws : s.getWs wsId with
    | none =>
      have heq : s.ensureTracked wsId = s := by
        unfold Sys.ensureTracked
        rw [if_pos hwm, hws]
      rw [heq]
      exact ⟨fun x hx => hx, rfl, rfl, rfl⟩
    | some ws =>
      have heq : s.ensureTracked wsId = ensureTrackedCore s wsId ws := by
        unfold Sys.ensureTracked
        rw [if_pos hwm, hws]
      rw [heq]
      exact ensureTrackedCore_fields s wsId ws
  · have heq : s.ensureTracked wsId = s := by
      unfold Sys.ensureTracked
      rw [if_neg hwm]
    rw [heq]
    exact ⟨fun x hx => hx, rfl, rfl, rfl⟩

theorem ensureTrackedCore_post (s : Sys) (wsId : ℕ) (ws : Ws)
    (hws : s.getWs wsId = some ws) :
    ∀ w', (ensureTrackedCore s wsId ws).getWs wsId = some w' →
      ∀ x ∈ w'.allWindows, s.valid.contains x = true →
        x ∈ (ensureTrackedCore s wsId ws).managed := by
  intro w' hw' x hx hv
  have hsub := foldRemove_getWs_subset
    (ws.allWindows.filter (fun h => !(s.valid.contains h))) wsId
    { s with managed := (ws.allWindows.foldl
        (fun m h => if s.valid.contains h then insertUnique m h else m)
        s.managed) } w' hw'
  obtain ⟨w0, hw0, hsub0⟩ := hsub
  have hw0' : w0 = ws := by
    have : ({ s with managed := (ws.allWindows.foldl
        (fun m h => if s.valid.contains h then insertUnique m h else m)
        s.managed) } : Sys).getWs wsId = s.getWs wsId := rfl
    rw [this, hws] at hw0
    exact (Option.some.inj hw0).symm
  subst hw0'
  have hx1 : x ∈ w0.allWindows := hsub0 x hx
  have hfields := foldRemove_fields
    (w0.allWindows.filter (fun h => !(s.valid.contains h))) wsId
    { s with managed := (w0.allWindows.foldl
        (fun m h => if s.valid.contains h then insertUnique m h else m)
        s.managed) }
  show x ∈ (List.foldl _ _ _ : Sys).managed
  rw [hfields.1]
  exact trackFold_tracks s.valid w0.allWindows s.managed hx1 hv

/-- The central guarantee of `_ensure_windows_tracked`: afterwards, every
valid window still in the workspace is in `_windows`. -/
theorem ensureTracked_post (s : Sys) (wsId : ℕ) (hwm : s.wmAttached = true) :
    ∀ w', (s.ensureTracked wsId).getWs wsId = some w' →
      ∀ x ∈ w'.allWindows, s.valid.contains x = true →
        x ∈ (s.ensureTracked wsId).managed := by
  intro w' hw' x hx hv
  cases hws : s.getWs wsId with
  | none =>
    have heq : s.ensureTracked wsId = s := by
      unfold Sys.ensureTracked
      rw [if_pos hwm, hws]
    rw [heq] at hw'
    rw [hws] at hw'
    cases hw'
  | some ws =>
    have heq : s.ensureTracked wsId = ensureTrackedCore s wsId ws := by
      unfold Sys.ensureTracked
      rw [if_pos hwm, hws]
    rw [heq] at hw' ⊢
    exact ensureTrackedCore_post s wsId ws hws w' hw' x hx hv

theorem mem_contains {l : List ℕ} {x : ℕ} (hx : x ∈ l) :
    l.contains x = true :=
  List.elem_eq_true_of_mem hx

theorem suppressEvents_fields (s : Sys) :
    (s.suppressEvents).managed = s.managed ∧
    (s.suppressEvents).valid = s.valid ∧
    (s.suppressEvents).wmAttached = s.wmAttached ∧
    (s.suppressEvents).monitorWs = s.monitorWs ∧
    (s.suppressEvents).workspaces = s.workspaces := by
  unfold Sys.suppressEvents
  split <;> exact ⟨rfl, rfl, rfl, rfl, rfl⟩

theorem resumeEvents_fields (s : Sys) :
    (s.resumeEvents).managed = s.managed ∧
    (s.resumeEvents).valid = s.valid ∧
    (s.resumeEvents).wmAttached = s.wmAttached ∧
    (s.resumeEvents).monitorWs = s.monitorWs ∧
    (s.resumeEvents).workspaces = s.workspaces := by
  unfold Sys.resumeEvents
  split <;> exact ⟨rfl, rfl, rfl, rfl, rfl⟩

theorem registerSuppressed_fields (s : Sys) (wss : List Ws) :
    (s.registerSuppressed wss).managed = s.managed ∧
    (s.registerSuppressed wss).valid = s.valid ∧
    (s.registerSuppressed wss).wmAttached = s.wmAttached ∧
    (s.registerSuppressed wss).monitorWs = s.monitorWs ∧
    (s.registerSuppressed wss).workspaces = s.workspaces := by
  unfold Sys.registerSuppressed
  split <;> exact ⟨rfl, rfl, rfl, rfl, rfl⟩

theorem getD_set_self (l : List ℕ) (i : ℕ) (x d : ℕ) (h : i < l.length) :
    (l.set i x).getD i d = x := by
  simp [List.getD_eq_getElem?_getD, List.getElem?_set_self h]

theorem getD_set_ne (l : List ℕ) {i j : ℕ} (x d : ℕ) (h : i ≠ j) :
    (l.set i x).getD j d = l.getD j d := by
  simp [List.getD_eq_getElem?_getD, List.getElem?_set_ne h]

/-- The non-swap switch path never orphans a window of the target
workspace: when it completes, every valid window still in the workspace
shown on the switched monitor is in `_windows`. -/
theorem normalSwitch_post (s : Sys) (t mi cur : ℕ) (hwm : s.wmAttached = true)
    (hmi : mi < s.monitorWs.length) :
    (s.normalSwitch t mi cur).2 = true →
    ∀ w', (s.normalSwitch t mi cur).1.getWs
        ((s.normalSwitch t mi cur).1.monitorWs.getD mi 1) = some w' →
      ∀ x ∈ w'.allWindows, x ∈ s.valid →
        x ∈ (s.normalSwitch t mi cur).1.managed := by
  unfold Sys.normalSwitch
  cases hcur : s.getWs cur with
  | none => intro hok; cases hok
  | some curWs =>
    cases ht : s.getWs t with
    | none => intro hok; cases hok
    | some tgtWs =>
      intro _ w' hw' x hx hv
      simp only [] at hw' ⊢
      set s1 := s.suppressEvents with hs1
      set s2 := s1.registerSuppressed [curWs, tgtWs] with hs2
      set s3 := s2.setWsActive cur false with hs3
      set s4 := s3.setWsActive t true with hs4
      set s5 := s4.ensureTracked t with hs5
      set s6 := s5.resumeEvents with hs6
      have hmon1 : s1.monitorWs = s.monitorWs := (suppressEvents_fields s).2.2.2.1
      have hmon2 : s2.monitorWs = s.monitorWs := by
        rw [(registerSuppressed_fields s1 _).2.2.2.1, hmon1]
      have hmon3 : s3.monitorWs = s.monitorWs := by
        rw [hs3, Sys.setWsActive, (updateWs_fields s2 cur _).2.2.2.1, hmon2]
      have hmon4 : s4.monitorWs = s.monitorWs := by
        rw [hs4, Sys.setWsActive, (updateWs_fields s3 t _).2.2.2.1, hmon3]
      have hmon5 : s5.monitorWs = s.monitorWs := by
        rw [hs5, (ensureTracked_fields s4 t).2.2.2, hmon4]
      have hmon6 : s6.monitorWs = s.monitorWs := by
        rw [hs6, (resumeEvents_fields s5).2.2.2.1, hmon5]
      have hval4 : s4.valid = s.valid := by
        rw [hs4, Sys.setWsActive, (updateWs_fields s3 t _).2.1, hs3,
          Sys.setWsActive, (updateWs_fields s2 cur _).2.1,
          (registerSuppressed_fields s1 _).2.1, (suppressEvents_fields s).2.1]
      have hwm4 : s4.wmAttached = true := by
        rw [hs4, Sys.setWsActive, (updateWs_fields s3 t _).2.2.1, hs3,
          Sys.setWsActive, (updateWs_fields s2 cur _).2.2.1,
          (registerSuppressed_fields s1 _).2.2.1,
          (suppressEvents_fields s).2.2.1, hwm]
      have hgetd : (s6.monitorWs.set mi t).getD mi 1 = t := by
        apply getD_set_self
        rw [hmon6]
        exact hmi
      rw [hgetd] at hw'
      have hws6 : ({ s6 with monitorWs := s6.monitorWs.set mi t} : Sys).getWs t
          = s5.getWs t := by
        show s6.getWs t = s5.getWs t
        unfold Sys.getWs
        rw [(resumeEvents_fields s5).2.2.2.2]
      rw [hws6] at hw'
      have hmng : ({ s6 with monitorWs := s6.monitorWs.set mi t} : Sys).managed
          = s5.managed := by
        show s6.managed = s5.managed
        exact (resumeEvents_fields s5).1
      rw [hmng]
      apply ensureTracked_post s4 t hwm4 w' hw' x hx
      rw [hval4]
      exact mem_contains hv

/-- The monitor-swap path never orphans a window of the workspace that
lands on monitor `ma`. -/
theorem swapWorkspaces_post (s : Sys) (ma mb : ℕ) (hwm : s.wmAttached = true)
    (hma : ma < s.monitorWs.length) (hne : mb ≠ ma) :
    (s.swapWorkspaces ma mb).2 = true →
    ∀ w', (s.swapWorkspaces ma mb).1.getWs
        ((s.swapWorkspaces ma mb).1.monitorWs.getD ma 1) = some w' →
      ∀ x ∈ w'.allWindows, x ∈ s.valid →
        x ∈ (s.swapWorkspaces ma mb).1.managed := by
  unfold Sys.swapWorkspaces
  cases ha : s.getWs (s.monitorWs.getD ma 1) with
  | none => intro hok; cases hok
  | some wsA =>
    cases hb : s.getWs (s.monitorWs.getD mb 1) with
    | none => intro hok; cases hok
    | some wsB =>
      intro _ w' hw' x hx hv
      simp only [] at hw' ⊢
      set wsAId := s.monitorWs.getD ma 1 with hwsa
      set wsBId := s.monitorWs.getD mb 1 with hwsb
      clear_value wsAId wsBId
      set s1 := s.suppressEvents with hs1
      set s2 := s1.registerSuppressed [wsA, wsB] with hs2
      set s3 := { s2 with monitorWs := (s2.monitorWs.set ma wsBId).set mb wsAId }
        with hs3
      set s4 := s3.ensureTracked wsAId with hs4
      set s5 := s4.ensureTracked wsBId with hs5
      have hmon2 : s2.monitorWs = s.monitorWs := by
        rw [(registerSuppressed_fields s1 _).2.2.2.1,
          (suppressEvents_fields s).2.2.2.1]
      have hmon4 : s4.monitorWs = s3.monitorWs :=
        (ensureTracked_fields s3 wsAId).2.2.2
      have hmon5 : s5.monitorWs = s3.monitorWs := by
        rw [hs5, (ensureTracked_fields s4 wsBId).2.2.2, hmon4]
      have hmonf : (s5.resumeEvents).monitorWs = s3.monitorWs := by
        rw [(resumeEvents_fields s5).2.2.2.1, hmon5]
      have hwm4 : s4.wmAttached = true := by
        rw [hs4, (ensureTracked_fields s3 wsAId).2.2.1]
        show s2.wmAttached = true
        rw [(registerSuppressed_fields s1 _).2.2.1,
          (suppressEvents_fields s).2.2.1, hwm]
      have hval4 : s4.valid = s.valid := by
        rw [hs4, (ensureTracked_fields s3 wsAId).2.1]
        show s2.valid = s.valid
        rw [(registerSuppressed_fields s1 _).2.1, (suppressEvents_fields s).2.1]
      have hgetd : (s5.resumeEvents).monitorWs.getD ma 1 = wsBId := by
        rw [hmonf]
        show ((s2.monitorWs.set ma wsBId).set mb wsAId).getD ma 1 = wsBId
        rw [getD_set_ne _ _ _ hne, getD_set_self]
        rw [hmon2]
        exact hma
      rw [hgetd] at hw'
      have hget5 : (s5.resumeEvents).getWs wsBId = s5.getWs wsBId := by
        unfold Sys.getWs
        rw [(resumeEvents_fields s5).2.2.2.2]
      rw [hget5] at hw'
      have hmng : (s5.resumeEvents).managed = s5.managed :=
        (resumeEvents_fields s5).1
      rw [hmng]
      apply ensureTracked_post s4 wsBId hwm4 w' hw' x hx
      rw [hval4]
      exact mem_contains hv

/-- Branch analysis of `switch_workspace`: it aborts, delegates to the
monitor swap, or runs the normal switch path. -/
theorem switchWorkspace_cases (s : Sys) (t mi : ℕ) :
    s.switchWorkspace t mi = (s, false) ∨
    (∃ tm, mi < s.monitorWs.length ∧ tm ≠ mi ∧
      s.switchWorkspace t mi = s.swapWorkspaces mi tm) ∨
    (mi < s.monitorWs.length ∧
      s.switchWorkspace t mi = s.normalSwitch t mi (s.monitorWs.getD mi 1)) := by
  by_cases h1 : (!(s.workspaces.any fun ws => ws.id == t)) = true
  · refine Or.inl ?_
    unfold Sys.switchWorkspace
    rw [if_pos h1]
  by_cases h2 : mi < s.monitorWs.length
  · by_cases h3 : (s.monitorWs.getD mi 1 == t) = true
    · refine Or.inl ?_
      unfold Sys.switchWorkspace
      rw [if_neg h1, if_pos h2, if_pos h3]
    · cases htm : s.getMonitorForWs t with
      | some tm =>
        by_cases h4 : tm ≠ mi
        · refine Or.inr (Or.inl ⟨tm, h2, h4, ?_⟩)
          unfold Sys.switchWorkspace
          rw [if_neg h1, if_pos h2, if_neg h3, htm]
          simp only [if_pos h4]
        · refine Or.inr (Or.inr ⟨h2, ?_⟩)
          unfold Sys.switchWorkspace
          rw [if_neg h1, if_pos h2, if_neg h3, htm]
          simp only [if_neg h4]
      | none =>
        refine Or.inr (Or.inr ⟨h2, ?_⟩)
        unfold Sys.switchWorkspace
        rw [if_neg h1, if_pos h2, if_neg h3, htm]
  · refine Or.inl ?_
    unfold Sys.switchWorkspace
    rw [if_neg h1, if_neg h2]

/-- The inactive-target tail of `move_window_to_workspace` re-inserts the
valid window into `_windows`. -/
theorem moveWindowCore_inactive_tracks (s : Sys) (h t srcId : ℕ)
    (hwm : s.wmAttached = true) (hv : h ∈ s.valid) :
    h ∈ (moveWindowCore s h t srcId false).1.managed := by
  unfold moveWindowCore
  simp only [Bool.false_eq_true, if_false]
  set s1 := if s.wmAttached = true then
    { s with suppressed := insertUnique s.suppressed h } else s with hs1
  set s2 := s1.updateWs srcId (fun ws => (ws.removeWindow h).1) with hs2
  set s3 := s2.updateWs t (fun ws => (ws.addWindow h false).1) with hs3
  set s4 := (s3.suppressEvents).resumeEvents with hs4
  have hwm4 : s4.wmAttached = true := by
    rw [hs4, (resumeEvents_fields _).2.2.1, (suppressEvents_fields s3).2.2.1,
      hs3, (updateWs_fields s2 t _).2.2.1, hs2,
      (updateWs_fields s1 srcId _).2.2.1, hs1]
    split <;> exact hwm
  have hval4 : s4.valid = s.valid := by
    rw [hs4, (resumeEvents_fields _).2.1, (suppressEvents_fields s3).2.1,
      hs3, (updateWs_fields s2 t _).2.1, hs2,
      (updateWs_fields s1 srcId _).2.1, hs1]
    split <;> rfl
  rw [if_pos ⟨hwm4, hval4 ▸ hv⟩]
  exact insertUnique_self s4.managed h

end TrackingLemmas

/-- C2 (counterexample): the managed-set consistency claim, read as an
invariant of all reachable states ("after any sequence of events … every
valid Window in any workspace is in the managed set or re-inserted by the
pending switch/move"), is false: start with 2 workspaces / 1 monitor and
one valid manageable window 7; show 7 (it is managed and enters workspace
1), move it to the inactive workspace 2 (it is re-registered and one-shot
suppressed), then deliver two late hide events.  The first is absorbed and
consumes the one-shot entry; the second unmanages 7, and the
`WINDOW_REMOVED` handler leaves it in the inactive workspace 2.  The final
state is quiescent — no switch or move pending — yet the valid window 7
sits in workspace 2 and is absent from the managed set. -/
theorem C2_counterexample :
    ¬ (∀ s : Sys, Reachable 2 1 s →
      ∀ ws ∈ s.workspaces, ∀ h ∈ ws.allWindows,
        h ∈ s.valid → h ∈ s.managed) := by
  intro hinv
  have h0 : Reachable 2 1 (initSys 2 1 [7] [7] []) := Reachable.init [7] [7] []
  have h1 := h0.step (Step.attach _)
  have h2 := h1.step (Step.evShow _ 7)
  have h3 := h2.step (Step.opMove _ 7 2)
  have h4 := h3.step (Step.evHide _ 7)
  have h5 := h4.step (Step.evHide _ 7)
  have hno := hinv _ h5
  revert hno
  decide

/-- C2 (amended): the claim holds in its per-operation form — no window is
ever left orphaned across a workspace switch or a move, because the
operations re-insert before completing.  Concretely, for EVERY state with
the `WindowManager` attached: (1) when `switch_workspace` completes
successfully, every valid window of the workspace then shown on the
switched monitor (both in the plain path and in the monitor-swap path) is
in the managed set; (2) when `move_window_to_workspace` to an inactive
workspace completes successfully, the moved valid window is re-inserted
into the managed set before the operation returns. -/
theorem C2_switch_move_reinsert (s : Sys) (t mi h : ℕ)
    (hwm : s.wmAttached = true) :
    ((s.switchWorkspace t mi).2 = true →
      ∀ w', (s.switchWorkspace t mi).1.getWs
          ((s.switchWorkspace t mi).1.monitorWs.getD mi 1) = some w' →
        ∀ x ∈ w'.allWindows, x ∈ s.valid →
          x ∈ (s.switchWorkspace t mi).1.managed) ∧
    ((s.moveWindow h t).2 = true →
      (∀ tws, s.getWs t = some tws → tws.active = false) →
      h ∈ s.valid → h ∈ (s.moveWindow h t).1.managed) := by
  constructor
  · intro hok w' hw' x hx hv
    rcases switchWorkspace_cases s t mi with heq | ⟨tm, hmi, hne, heq⟩ |
      ⟨hmi, heq⟩
    · rw [heq] at hok
      cases hok
    · rw [heq] at hok hw' ⊢
      exact swapWorkspaces_post s mi tm hwm hmi hne hok w' hw' x hx hv
    · rw [heq] at hok hw' ⊢
      exact normalSwitch_post s t mi _ hwm hmi hok w' hw' x hx hv
  · intro hok hact hv
    unfold Sys.moveWindow at hok ⊢
    cases hws : s.getWs t with
    | none => simp [hws] at hok
    | some targetWs =>
      by_cases hc : targetWs.contains h = true
      · simp [hws, hc] at hok
      · cases hfind : s.findWs h with
        | none => simp [hws, hc, hfind] at hok
        | some sourceWs =>
          simp only [hc, if_false, hfind]
          rw [hact targetWs hws]
          exact moveWindowCore_inactive_tracks s h t sourceWs.id hwm hv

/-- Witness for C2 on a concrete two-workspace system: switching monitor 0
from workspace 1 to workspace 2 re-inserts workspace 2's valid window 9
into the managed set. -/
theorem C2_witness :
    (((⟨[], none, false, [], [⟨1, [], [], true⟩, ⟨2, [9], [], false⟩],
        [1], 1, [], true, [9], [9], []⟩ : Sys).switchWorkspace 2 0).2 = true →
      ∀ w', ((⟨[], none, false, [], [⟨1, [], [], true⟩, ⟨2, [9], [], false⟩],
          [1], 1, [], true, [9], [9], []⟩ : Sys).switchWorkspace 2 0).1.getWs
          ((((⟨[], none, false, [], [⟨1, [], [], true⟩, ⟨2, [9], [], false⟩],
            [1], 1, [], true, [9], [9], []⟩ : Sys).switchWorkspace
              2 0).1.monitorWs).getD 0 1) = some w' →
        ∀ x ∈ w'.allWindows,
          x ∈ (⟨[], none, false, [], [⟨1, [], [], true⟩, ⟨2, [9], [], false⟩],
            [1], 1, [], true, [9], [9], []⟩ : Sys).valid →
          x ∈ ((⟨[], none, false, [],
            [⟨1, [], [], true⟩, ⟨2, [9], [], false⟩],
            [1], 1, [], true, [9], [9], []⟩ : Sys).switchWorkspace
              2 0).1.managed) ∧
    (((⟨[], none, false, [], [⟨1, [], [], true⟩, ⟨2, [9], [], false⟩],
        [1], 1, [], true, [9], [9], []⟩ : Sys).moveWindow 5 2).2 = true →
      (∀ tws, (⟨[], none, false, [],
          [⟨1, [], [], true⟩, ⟨2, [9], [], false⟩],
          [1], 1, [], true, [9], [9], []⟩ : Sys).getWs 2 = some tws →
        tws.active = false) →
      5 ∈ (⟨[], none, false, [], [⟨1, [], [], true⟩, ⟨2, [9], [], false⟩],
        [1], 1, [], true, [9], [9], []⟩ : Sys).valid →
      5 ∈ ((⟨[], none, false, [], [⟨1, [], [], true⟩, ⟨2, [9], [], false⟩],
        [1], 1, [], true, [9], [9], []⟩ : Sys).moveWindow 5 2).1.managed) :=
  C2_switch_move_reinsert
    ⟨[], none, false, [], [⟨1, [], [], true⟩, ⟨2, [9], [], false⟩],
      [1], 1, [], true, [9], [9], []⟩ 2 0 5 rfl

/-! ### C6: the monitor → workspace assignment -/

/-- The id/active projection of the workspace dict: what C6's
"MonitorAssignment … bijection on the image, every shown workspace
active" is about. -/
def wsFlags (s : Sys) : List (ℕ × Bool) :=
  s.workspaces.map (fun ws => (ws.id, ws.active))

section MonitorAssignmentLemmas

theorem wsIds_eq_flags_fst (s : Sys) :
    s.workspaces.map Ws.id = (wsFlags s).map Prod.fst := by
  unfold wsFlags
  rw [List.map_map]
  rfl

theorem wsFlags_congr {s s' : Sys} (h : s'.workspaces = s.workspaces) :
    wsFlags s' = wsFlags s := by
  unfold wsFlags
  rw [h]

theorem getD_eq_getElem (l : List ℕ) (i d : ℕ) (h : i < l.length) :
    l.getD i d = l[i] := by
  simp [List.getElem?_eq_getElem h]

theorem getD_mem_of_lt (l : List ℕ) (i d : ℕ) (h : i < l.length) :
    l.getD i d ∈ l := by
  rw [getD_eq_getElem l i d h]
  exact List.getElem_mem h

theorem getD_inj_of_nodup (l : List ℕ) (hnd : l.Nodup) (d : ℕ) :
    ∀ i j, i < l.length → j < l.length → l.getD i d = l.getD j d → i = j := by
  intro i j hi hj hEq
  rw [getD_eq_getElem l i d hi, getD_eq_getElem l j d hj] at hEq
  exact (List.Nodup.getElem_inj_iff hnd).1 hEq

theorem nodup_of_getD_inj (l : List ℕ) (d : ℕ)
    (h : ∀ i j, i < l.length → j < l.length → l.getD i d = l.getD j d → i = j) :
    l.Nodup := by
  rw [List.nodup_iff_injective_getElem]
  intro i j hEq
  apply Fin.ext
  apply h i.1 j.1 i.2 j.2
  rw [getD_eq_getElem l i.1 d i.2, getD_eq_getElem l j.1 d j.2]
  exact hEq

theorem nodup_set_of_not_mem :
    ∀ (l : List ℕ) (i b : ℕ), l.Nodup → b ∉ l → (l.set i b).Nodup := by
  intro l
  induction l with
  | nil => intro i b _ _; simp
  | cons a l ih =>
    intro i b hnd hb
    rcases List.nodup_cons.1 hnd with ⟨hal, hl⟩
    cases i with
    | zero =>
      rw [List.set_cons_zero]
      exact List.nodup_cons.2
        ⟨fun hmem => hb (List.mem_cons_of_mem a hmem), hl⟩
    | succ j =>
      rw [List.set_cons_succ]
      refine List.nodup_cons.2 ⟨?_, ih j b hl
        (fun hm => hb (List.mem_cons_of_mem a hm))⟩
      intro hmem
      rcases List.mem_or_eq_of_mem_set hmem with hmm | hmm
      · exact hal hmm
      · exact hb (hmm ▸ List.mem_cons_self a l)

theorem not_mem_set_of_nodup (l : List ℕ) (i b d : ℕ) (hnd : l.Nodup)
    (hi : i < l.length) (hne : l.getD i d ≠ b) : l.getD i d ∉ l.set i b := by
  intro hmem
  obtain ⟨j, hj, hval⟩ := List.mem_iff_getElem.1 hmem
  rw [List.length_set] at hj
  by_cases hji : j = i
  · subst hji
    rw [List.getElem_set_self] at hval
    exact hne hval.symm
  · rw [List.getElem_set_ne (fun hh => hji hh.symm)] at hval
    rw [getD_eq_getElem l i d hi] at hval
    exact hji ((List.Nodup.getElem_inj_iff hnd).1 hval)

theorem nodup_set_swap (l : List ℕ) (ma mb : ℕ) (hma : ma < l.length)
    (hmb : mb < l.length) (hnd : l.Nodup) :
    ((l.set ma (l.getD mb 1)).set mb (l.getD ma 1)).Nodup := by
  apply nodup_of_getD_inj _ 1
  intro i j hi hj hEq
  rw [List.length_set, List.length_set] at hi hj
  have hchar : ∀ k, k < l.length →
      ((l.set ma (l.getD mb 1)).set mb (l.getD ma 1)).getD k 1 =
        l.getD (if k = mb then ma else if k = ma then mb else k) 1 := by
    intro k hk
    by_cases hkb : k = mb
    · subst hkb
      rw [if_pos rfl]
      exact getD_set_self _ _ _ _ (by simpa using hk)
    · rw [if_neg hkb, getD_set_ne _ _ _ (fun hh => hkb hh.symm)]
      by_cases hka : k = ma
      · subst hka
        rw [if_pos rfl]
        exact getD_set_self _ _ _ _ hk
      · rw [if_neg hka, getD_set_ne _ _ _ (fun hh => hka hh.symm)]
  rw [hchar i hi, hchar j hj] at hEq
  have hb1 : (if i = mb then ma else if i = ma then mb else i) < l.length := by
    split_ifs <;> first | exact hma | exact hmb | exact hi
  have hb2 : (if j = mb then ma else if j = ma then mb else j) < l.length := by
    split_ifs <;> first | exact hma | exact hmb | exact hj
  have hσ := getD_inj_of_nodup l hnd 1 _ _ hb1 hb2 hEq
  split_ifs at hσ <;> omega

end MonitorAssignmentLemmas

section MonitorProjLemmas

theorem addWindow_id_active (ws : Ws) (h : ℕ) (b : Bool) :
    ((ws.addWindow h b).1).id = ws.id ∧
    ((ws.addWindow h b).1).active = ws.active := by
  unfold Ws.addWindow
  split
  · exact ⟨rfl, rfl⟩
  · split <;> exact ⟨rfl, rfl⟩

theorem removeWindow_id_active (ws : Ws) (h : ℕ) :
    ((ws.removeWindow h).1).id = ws.id ∧
    ((ws.removeWindow h).1).active = ws.active := by
  unfold Ws.removeWindow
  split
  · exact ⟨rfl, rfl⟩
  · split <;> exact ⟨rfl, rfl⟩

/-- An id- and active-preserving per-workspace update leaves the
id/active projection untouched. -/
theorem wsFlags_updateWs (s : Sys) (wsId : ℕ) (f : Ws → Ws)
    (hf : ∀ ws, (f ws).id = ws.id ∧ (f ws).active = ws.active) :
    wsFlags (s.updateWs wsId f) = wsFlags s := by
  unfold wsFlags Sys.updateWs
  rw [List.map_map]
  apply List.map_congr_left
  intro ws _
  by_cases hc : (ws.id == wsId) = true <;>
    simp [hc, Function.comp, (hf ws).1, (hf ws).2]

/-- With unique workspace ids, an update that is id- and
active-preserving on the (unique) workspace actually stored under the
key leaves the projection untouched — even if the update function is a
constant, as in `add_window`. -/
theorem wsFlags_updateWs_unique (s : Sys) {wsId : ℕ} {ws : Ws}
    (hnd : (s.workspaces.map Ws.id).Nodup) (hws : s.getWs wsId = some ws)
    (f : Ws → Ws) (hf : (f ws).id = ws.id ∧ (f ws).active = ws.active) :
    wsFlags (s.updateWs wsId f) = wsFlags s := by
  unfold wsFlags Sys.updateWs
  rw [List.map_map]
  apply List.map_congr_left
  intro ws' hmem
  by_cases hc : (ws'.id == wsId) = true
  · have hid : ws'.id = wsId := eq_of_beq hc
    have hfind : s.workspaces.find? (fun w2 => w2.id == wsId) = some ws := hws
    have hwmem : ws ∈ s.workspaces := List.mem_of_find?_eq_some hfind
    have hp := List.find?_some hfind
    have hwid : ws.id = wsId := eq_of_beq hp
    have hww : ws' = ws :=
      List.inj_on_of_nodup_map hnd hmem hwmem (by rw [hid, hwid])
    subst hww
    simp [hc, Function.comp, hf.1, hf.2]
  · simp [hc, Function.comp]

theorem wsFlags_setWsActive (s : Sys) (wsId : ℕ) (b : Bool) :
    wsFlags (s.setWsActive wsId b) =
      (wsFlags s).map (fun p => if p.1 == wsId then (p.1, b) else p) := by
  unfold wsFlags Sys.setWsActive Sys.updateWs
  rw [List.map_map, List.map_map]
  apply List.map_congr_left
  intro ws _
  by_cases hc : (ws.id == wsId) = true <;> simp [hc, Function.comp]

/-- A first-component-preserving map of the flags keeps the id list. -/
theorem map_fst_flags_map (l : List (ℕ × Bool)) (f : ℕ × Bool → ℕ × Bool)
    (hf : ∀ p, (f p).1 = p.1) : (l.map f).map Prod.fst = l.map Prod.fst := by
  rw [List.map_map]
  exact List.map_congr_left (fun p _ => hf p)

theorem wsFlags_foldRemove (xs : List ℕ) (wsId : ℕ) (s : Sys) :
    wsFlags (xs.foldl (fun st h => st.updateWs wsId
      (fun w => (w.removeWindow h).1)) s) = wsFlags s := by
  induction xs generalizing s with
  | nil => rfl
  | cons y ys ih =>
    rw [List.foldl_cons, ih, wsFlags_updateWs]
    exact fun ws => removeWindow_id_active ws y

theorem monProj_ensureTracked (s : Sys) (wsId : ℕ) :
    (s.ensureTracked wsId).monitorWs = s.monitorWs ∧
    wsFlags (s.ensureTracked wsId) = wsFlags s := by
  refine ⟨(ensureTracked_fields s wsId).2.2.2, ?_⟩
  by_cases hwm : s.wmAttached = true
  · cases hws : s.getWs wsId with
    | none =>
      have heq : s.ensureTracked wsId = s := by
        unfold Sys.ensureTracked
        rw [if_pos hwm, hws]
      rw [heq]
    | some ws =>
      have heq : s.ensureTracked wsId = ensureTrackedCore s wsId ws := by
        unfold Sys.ensureTracked
        rw [if_pos hwm, hws]
      rw [heq]
      simp only [ensureTrackedCore]
      rw [wsFlags_foldRemove]
      rfl
  · have heq : s.ensureTracked wsId = s := by
      unfold Sys.ensureTracked
      rw [if_neg hwm]
    rw [heq]

theorem removeFirstWs_flags (wss : List Ws) (h : ℕ) :
    (removeFirstWs wss h).1.map (fun ws => (ws.id, ws.active)) =
      wss.map (fun ws => (ws.id, ws.active)) := by
  induction wss with
  | nil => rfl
  | cons ws rest ih =>
    simp only [removeFirstWs]
    by_cases hr : (ws.removeWindow h).2 = true
    · rw [if_pos hr]
      simp only [List.map_cons]
      rw [(removeWindow_id_active ws h).1, (removeWindow_id_active ws h).2]
    · rw [if_neg hr]
      simp only [List.map_cons, ih]

theorem monProj_wsmRemoveWindow (s : Sys) (h : ℕ) :
    (s.wsmRemoveWindow h).1.monitorWs = s.monitorWs ∧
    wsFlags (s.wsmRemoveWindow h).1 = wsFlags s :=
  ⟨rfl, removeFirstWs_flags s.workspaces h⟩

theorem monProj_wsmAddWindow (s : Sys) (h : ℕ)
    (hnd : (s.workspaces.map Ws.id).Nodup) :
    (s.wsmAddWindow h).1.monitorWs = s.monitorWs ∧
    wsFlags (s.wsmAddWindow h).1 = wsFlags s := by
  simp only [Sys.wsmAddWindow]
  by_cases h1 : (s.workspaces.any fun ws => ws.contains h) = true
  · rw [if_pos h1]; exact ⟨rfl, rfl⟩
  · rw [if_neg h1]
    by_cases h2 : s.nativeFs.contains h = true
    · rw [if_pos h2]; exact ⟨rfl, rfl⟩
    · rw [if_neg h2]
      cases hws : s.getWs (s.getActiveWsId 0) with
      | none => exact ⟨rfl, rfl⟩
      | some ws =>
        simp only []
        by_cases hr : (ws.addWindow h false).2 = true
        · rw [if_pos hr]
          exact ⟨(updateWs_fields _ _ _).2.2.2.1,
            wsFlags_updateWs_unique s hnd hws _
              ⟨(addWindow_id_active ws h false).1,
               (addWindow_id_active ws h false).2⟩⟩
        · rw [if_neg hr]; exact ⟨rfl, rfl⟩

end MonitorProjLemmas

section HandlerProjLemmas

theorem monProj_wsHandler (s : Sys) (ev : WMEvent) (h : ℕ)
    (hnd : (s.workspaces.map Ws.id).Nodup) :
    (s.wsHandler ev h).monitorWs = s.monitorWs ∧
    wsFlags (s.wsHandler ev h) = wsFlags s := by
  cases ev with
  | windowAdded => exact monProj_wsmAddWindow s h hnd
  | windowRemoved =>
    simp only [Sys.wsHandler]
    cases hf : s.findWs h with
    | some ws =>
      simp only []
      by_cases ha : (!ws.active) = true
      · rw [if_pos ha]; exact ⟨rfl, rfl⟩
      · rw [if_neg ha]; exact monProj_wsmRemoveWindow s h
    | none => exact monProj_wsmRemoveWindow s h
  | windowRestored =>
    simp only [Sys.wsHandler]
    cases hf : s.findWs h with
    | some _ => exact ⟨rfl, rfl⟩
    | none =>
      cases hp : (popAssoc s.minimizedOrigins h).1 with
      | some originId =>
        simp only []
        split
        next target hg =>
          by_cases hta : target.active = true
          · rw [if_pos hta]
            exact ⟨(updateWs_fields _ _ _).2.2.2.1,
              wsFlags_updateWs _ originId _
                (fun ws => addWindow_id_active ws h false)⟩
          · rw [if_neg hta]
            refine ⟨?_, ?_⟩
            · rw [(resumeEvents_fields _).2.2.2.1,
                (suppressEvents_fields _).2.2.2.1,
                (updateWs_fields _ _ _).2.2.2.1]
            · rw [wsFlags_congr (resumeEvents_fields _).2.2.2.2,
                wsFlags_congr (suppressEvents_fields _).2.2.2.2]
              exact wsFlags_updateWs _ originId _
                (fun ws => addWindow_id_active ws h false)
        next hg =>
          exact monProj_wsmAddWindow
            { s with minimizedOrigins := (popAssoc s.minimizedOrigins h).2 } h hnd
      | none =>
        exact monProj_wsmAddWindow
          { s with minimizedOrigins := (popAssoc s.minimizedOrigins h).2 } h hnd
  | windowMinimized =>
    simp only [Sys.wsHandler]
    cases hf : s.findWs h with
    | some ws => exact monProj_wsmRemoveWindow _ h
    | none => exact monProj_wsmRemoveWindow s h
  | focusChanged => exact ⟨rfl, rfl⟩
  | windowMoved => exact ⟨rfl, rfl⟩
  | titleChanged => exact ⟨rfl, rfl⟩

theorem monProj_manage (s : Sys) (h : ℕ)
    (hnd : (s.workspaces.map Ws.id).Nodup) :
    (s.manage h).1.monitorWs = s.monitorWs ∧
    wsFlags (s.manage h).1 = wsFlags s := by
  simp only [Sys.manage]
  by_cases h1 : h ∈ s.managed
  · rw [if_pos h1]; exact ⟨rfl, rfl⟩
  · rw [if_neg h1]
    by_cases h2 : (!(s.manageable.contains h)) = true
    · rw [if_pos h2]; exact ⟨rfl, rfl⟩
    · rw [if_neg h2]
      exact monProj_wsHandler { s with managed := s.managed ++ [h] }
        .windowAdded h hnd

theorem monProj_unmanage (s : Sys) (h : ℕ)
    (hnd : (s.workspaces.map Ws.id).Nodup) :
    (s.unmanage h).1.monitorWs = s.monitorWs ∧
    wsFlags (s.unmanage h).1 = wsFlags s := by
  simp only [Sys.unmanage]
  by_cases h1 : h ∈ s.managed
  · rw [if_pos h1]
    split
    · exact monProj_wsHandler _ .windowRemoved h hnd
    · exact monProj_wsHandler _ .windowRemoved h hnd
  · rw [if_neg h1]; exact ⟨rfl, rfl⟩

theorem monProj_handleShow (s : Sys) (h : ℕ)
    (hnd : (s.workspaces.map Ws.id).Nodup) :
    (s.handleShow h).1.monitorWs = s.monitorWs ∧
    wsFlags (s.handleShow h).1 = wsFlags s := by
  simp only [Sys.handleShow]
  by_cases h1 : s.suppress = true
  · rw [if_pos h1]; exact ⟨rfl, rfl⟩
  · rw [if_neg h1]
    by_cases h2 : h ∈ s.suppressed
    · rw [if_pos h2]; exact ⟨rfl, rfl⟩
    · rw [if_neg h2]; exact monProj_manage s h hnd

theorem monProj_handleHide (s : Sys) (h : ℕ)
    (hnd : (s.workspaces.map Ws.id).Nodup) :
    (s.handleHide h).1.monitorWs = s.monitorWs ∧
    wsFlags (s.handleHide h).1 = wsFlags s := by
  simp only [Sys.handleHide]
  by_cases h1 : s.suppress = true
  · rw [if_pos h1]; exact ⟨rfl, rfl⟩
  · rw [if_neg h1]
    by_cases h2 : h ∈ s.suppressed
    · rw [if_pos h2]; exact ⟨rfl, rfl⟩
    · rw [if_neg h2]; exact monProj_unmanage s h hnd

theorem monProj_handleDestroy (s : Sys) (h : ℕ)
    (hnd : (s.workspaces.map Ws.id).Nodup) :
    (s.handleDestroy h).1.monitorWs = s.monitorWs ∧
    wsFlags (s.handleDestroy h).1 = wsFlags s := by
  simp only [Sys.handleDestroy]
  by_cases h1 : s.suppress = true
  · rw [if_pos (show ({ s with suppressed := s.suppressed.erase h } :
        Sys).suppress = true from h1)]
    split
    · split
      · exact ⟨rfl, rfl⟩
      · exact ⟨rfl, rfl⟩
    · exact ⟨rfl, rfl⟩
  · rw [if_neg (show ¬ ({ s with suppressed := s.suppressed.erase h } :
        Sys).suppress = true from h1)]
    exact monProj_unmanage { s with suppressed := s.suppressed.erase h } h hnd

theorem monProj_handleForeground (s : Sys) (h : ℕ)
    (hnd : (s.workspaces.map Ws.id).Nodup) :
    (s.handleForeground h).1.monitorWs = s.monitorWs ∧
    wsFlags (s.handleForeground h).1 = wsFlags s := by
  simp only [Sys.handleForeground]
  by_cases h1 : s.suppress = true
  · rw [if_pos h1]; exact ⟨rfl, rfl⟩
  · rw [if_neg h1]
    by_cases h2 : h ∈ s.suppressed
    · rw [if_pos h2]; exact ⟨rfl, rfl⟩
    · rw [if_neg h2]
      by_cases hm : h ∉ s.managed
      · rw [if_pos hm]
        split
        · exact monProj_manage s h hnd
        · exact monProj_manage s h hnd
      · rw [if_neg hm]
        split
        · exact ⟨rfl, rfl⟩
        · exact ⟨rfl, rfl⟩

theorem monProj_handleMinimize (s : Sys) (h : ℕ)
    (hnd : (s.workspaces.map Ws.id).Nodup) :
    (s.handleMinimize h).1.monitorWs = s.monitorWs ∧
    wsFlags (s.handleMinimize h).1 = wsFlags s := by
  simp only [Sys.handleMinimize]
  by_cases h1 : s.suppress = true
  · rw [if_pos h1]; exact ⟨rfl, rfl⟩
  · rw [if_neg h1]
    by_cases h2 : h ∈ s.suppressed
    · rw [if_pos h2]; exact ⟨rfl, rfl⟩
    · rw [if_neg h2]
      by_cases hm : h ∈ s.managed
      · rw [if_pos hm]
        exact monProj_wsHandler s .windowMinimized h hnd
      · rw [if_neg hm]; exact ⟨rfl, rfl⟩

theorem monProj_handleRestore (s : Sys) (h : ℕ)
    (hnd : (s.workspaces.map Ws.id).Nodup) :
    (s.handleRestore h).1.monitorWs = s.monitorWs ∧
    wsFlags (s.handleRestore h).1 = wsFlags s := by
  simp only [Sys.handleRestore]
  by_cases h1 : s.suppress = true
  · rw [if_pos h1]; exact ⟨rfl, rfl⟩
  · rw [if_neg h1]
    by_cases h2 : h ∈ s.suppressed
    · rw [if_pos h2]; exact ⟨rfl, rfl⟩
    · rw [if_neg h2]
      by_cases hm : h ∉ s.managed
      · rw [if_pos hm]
        split
        · have hp := monProj_manage s h hnd
          have hnd1 : ((s.manage h).1.workspaces.map Ws.id).Nodup := by
            rw [wsIds_eq_flags_fst, hp.2, ← wsIds_eq_flags_fst]
            exact hnd
          have hw := monProj_wsHandler (s.manage h).1 .windowRestored h hnd1
          exact ⟨hw.1.trans hp.1, hw.2.trans hp.2⟩
        · exact monProj_manage s h hnd
      · rw [if_neg hm]
        split
        · exact monProj_wsHandler s .windowRestored h hnd
        · exact ⟨rfl, rfl⟩

theorem monProj_scanWindow (s : Sys) (h : ℕ)
    (hnd : (s.workspaces.map Ws.id).Nodup) :
    (s.scanWindow h).monitorWs = s.monitorWs ∧
    wsFlags (s.scanWindow h) = wsFlags s := by
  simp only [Sys.scanWindow]
  exact monProj_wsHandler { s with managed := insertUnique s.managed h }
    .windowAdded h hnd

end HandlerProjLemmas

section OpProjLemmas

theorem monProj_moveWindowCore (s : Sys) (h t srcId : ℕ) (b : Bool) :
    (moveWindowCore s h t srcId b).1.monitorWs = s.monitorWs ∧
    wsFlags (moveWindowCore s h t srcId b).1 = wsFlags s := by
  unfold moveWindowCore
  set s1 := if s.wmAttached = true then
    { s with suppressed := insertUnique s.suppressed h } else s with hs1
  set s2 := s1.updateWs srcId (fun ws => (ws.removeWindow h).1) with hs2
  set s3 := s2.updateWs t (fun ws => (ws.addWindow h false).1) with hs3
  have hp1 : s1.monitorWs = s.monitorWs ∧ wsFlags s1 = wsFlags s := by
    rw [hs1]
    split <;> exact ⟨rfl, rfl⟩
  have hp3 : s3.monitorWs = s.monitorWs ∧ wsFlags s3 = wsFlags s := by
    constructor
    · rw [hs3, (updateWs_fields _ _ _).2.2.2.1, hs2,
        (updateWs_fields _ _ _).2.2.2.1, hp1.1]
    · rw [hs3, wsFlags_updateWs _ t _ (fun ws => addWindow_id_active ws h false),
        hs2, wsFlags_updateWs _ srcId _ (fun ws => removeWindow_id_active ws h),
        hp1.2]
  cases b with
  | true => exact hp3
  | false =>
    simp only [Bool.false_eq_true, if_false]
    set s4 := (s3.suppressEvents).resumeEvents with hs4
    have hp4 : s4.monitorWs = s.monitorWs ∧ wsFlags s4 = wsFlags s := by
      constructor
      · rw [hs4, (resumeEvents_fields _).2.2.2.1,
          (suppressEvents_fields _).2.2.2.1, hp3.1]
      · rw [hs4, wsFlags_congr (resumeEvents_fields _).2.2.2.2,
          wsFlags_congr (suppressEvents_fields _).2.2.2.2, hp3.2]
    constructor
    · split
      · exact hp4.1
      · exact hp4.1
    · split
      · exact hp4.2
      · exact hp4.2

theorem monProj_moveWindow (s : Sys) (h t : ℕ) :
    (s.moveWindow h t).1.monitorWs = s.monitorWs ∧
    wsFlags (s.moveWindow h t).1 = wsFlags s := by
  unfold Sys.moveWindow
  cases hws : s.getWs t with
  | none => exact ⟨rfl, rfl⟩
  | some targetWs =>
    simp only []
    by_cases hc : targetWs.contains h = true
    · rw [if_pos hc]; exact ⟨rfl, rfl⟩
    · rw [if_neg hc]
      cases hf : s.findWs h with
      | none => exact ⟨rfl, rfl⟩
      | some sourceWs => exact monProj_moveWindowCore s h t sourceWs.id targetWs.active

theorem monProj_moveToNextMonitor (s : Sys) (h : ℕ) :
    (s.moveToNextMonitor h).1.monitorWs = s.monitorWs ∧
    wsFlags (s.moveToNextMonitor h).1 = wsFlags s := by
  simp only [Sys.moveToNextMonitor]
  by_cases h1 : s.monitorCount < 2
  · rw [if_pos h1]; exact ⟨rfl, rfl⟩
  · rw [if_neg h1]
    cases hf : s.findWs h with
    | none => exact ⟨rfl, rfl⟩
    | some sourceWs =>
      simp only []
      cases hm : s.getMonitorForWs sourceWs.id with
      | none => exact ⟨rfl, rfl⟩
      | some smi =>
        simp only []
        constructor
        · rw [(updateWs_fields _ _ _).2.2.2.1, (updateWs_fields _ _ _).2.2.2.1]
        · rw [wsFlags_updateWs _ _ _ (fun ws => addWindow_id_active ws h false),
            wsFlags_updateWs _ _ _ (fun ws => removeWindow_id_active ws h)]

theorem monProj_wsSwapMaster (s : Sys) (wsId : ℕ) :
    (s.wsSwapMaster wsId).monitorWs = s.monitorWs ∧
    wsFlags (s.wsSwapMaster wsId) = wsFlags s := by
  unfold Sys.wsSwapMaster
  refine ⟨(updateWs_fields _ _ _).2.2.2.1, wsFlags_updateWs _ _ _ ?_⟩
  intro ws
  rcases htl : ws.tiled with _ | ⟨a, rest0⟩
  · exact ⟨rfl, rfl⟩
  · rcases rest0 with _ | ⟨b2, rest⟩
    · exact ⟨rfl, rfl⟩
    · exact ⟨rfl, rfl⟩

theorem monProj_wsRotateNext (s : Sys) (wsId : ℕ) :
    (s.wsRotateNext wsId).monitorWs = s.monitorWs ∧
    wsFlags (s.wsRotateNext wsId) = wsFlags s := by
  unfold Sys.wsRotateNext
  refine ⟨(updateWs_fields _ _ _).2.2.2.1, wsFlags_updateWs _ _ _ ?_⟩
  intro ws
  split <;> exact ⟨rfl, rfl⟩

theorem monProj_wsRotatePrev (s : Sys) (wsId : ℕ) :
    (s.wsRotatePrev wsId).monitorWs = s.monitorWs ∧
    wsFlags (s.wsRotatePrev wsId) = wsFlags s := by
  unfold Sys.wsRotatePrev
  refine ⟨(updateWs_fields _ _ _).2.2.2.1, wsFlags_updateWs _ _ _ ?_⟩
  intro ws
  split <;> exact ⟨rfl, rfl⟩

theorem monProj_restoreAll (s : Sys) :
    (s.restoreAll).monitorWs = s.monitorWs ∧
    wsFlags (s.restoreAll) = wsFlags s := by
  unfold Sys.restoreAll
  constructor
  · rw [(resumeEvents_fields _).2.2.2.1, (suppressEvents_fields _).2.2.2.1]
  · rw [wsFlags_congr (resumeEvents_fields _).2.2.2.2,
      wsFlags_congr (suppressEvents_fields _).2.2.2.2]

/-- The deactivation loop of `refresh_monitors`, projected to the
id/active list. -/
theorem foldDeactivate_proj (ids : List ℕ) (s : Sys) :
    (ids.foldl (fun st wsId => st.setWsActive wsId false) s).monitorWs
      = s.monitorWs ∧
    wsFlags (ids.foldl (fun st wsId => st.setWsActive wsId false) s) =
      (wsFlags s).map (fun p => if p.1 ∈ ids then (p.1, false) else p) := by
  induction ids generalizing s with
  | nil =>
    refine ⟨rfl, ?_⟩
    simp
  | cons y ys ih =>
    simp only [List.foldl_cons]
    obtain ⟨ihm, ihf⟩ := ih (s.setWsActive y false)
    refine ⟨by rw [ihm]; rfl, ?_⟩
    rw [ihf, wsFlags_setWsActive, List.map_map]
    apply List.map_congr_left
    intro p _
    obtain ⟨a, b⟩ := p
    by_cases h2 : a = y <;> by_cases h1 : a ∈ ys <;>
      simp [Function.comp, h1, h2, List.mem_cons]

/-- The activation loop of `WorkspaceManager.__init__`, projected to the
id/active list. -/
theorem foldActivate_flags (mons : List ℕ) (wss : List Ws) :
    (mons.foldl (fun acc wsId => acc.map
        (fun ws => if ws.id == wsId then { ws with active := true } else ws))
        wss).map (fun ws => (ws.id, ws.active)) =
      wss.map (fun ws => (ws.id, if ws.id ∈ mons then true else ws.active)) := by
  induction mons generalizing wss with
  | nil => simp
  | cons y ys ih =>
    simp only [List.foldl_cons]
    rw [ih, List.map_map]
    apply List.map_congr_left
    intro ws _
    by_cases h2 : ws.id = y <;> by_cases h1 : ws.id ∈ ys <;>
      simp [Function.comp, h1, h2, List.mem_cons]

end OpProjLemmas

/-- The C6 assignment invariant: workspace ids are pairwise distinct, no
two monitors show the same workspace, and every workspace in the image
of the monitor map is flagged active. -/
def monitorInv (s : Sys) : Prop :=
  (s.workspaces.map Ws.id).Nodup ∧ s.monitorWs.Nodup ∧
  ∀ id ∈ s.monitorWs, (id, true) ∈ wsFlags s

section MonitorInvLemmas

theorem monitorInv_congr {s s' : Sys} (hm : s'.monitorWs = s.monitorWs)
    (hw : wsFlags s' = wsFlags s) (h : monitorInv s) : monitorInv s' := by
  unfold monitorInv at h ⊢
  rw [wsIds_eq_flags_fst s', hw, hm, ← wsIds_eq_flags_fst s]
  exact h

theorem monitorInv_normalSwitch (s : Sys) (t mi cur : ℕ) (hinv : monitorInv s)
    (hmi : mi < s.monitorWs.length) (hcur : s.monitorWs.getD mi 1 = cur)
    (hnotin : t ∉ s.monitorWs) :
    monitorInv (s.normalSwitch t mi cur).1 := by
  obtain ⟨hids, hmnd, hact⟩ := hinv
  cases hc : s.getWs cur with
  | none =>
    have heq : s.normalSwitch t mi cur = (s, false) := by
      unfold Sys.normalSwitch
      rw [hc]
    rw [heq]
    exact ⟨hids, hmnd, hact⟩
  | some curWs =>
    cases ht : s.getWs t with
    | none =>
      have heq : s.normalSwitch t mi cur = (s, false) := by
        unfold Sys.normalSwitch
        rw [hc, ht]
      rw [heq]
      exact ⟨hids, hmnd, hact⟩
    | some tgtWs =>
      set s1 := s.suppressEvents with hs1
      set s2 := s1.registerSuppressed [curWs, tgtWs] with hs2
      set s3 := s2.setWsActive cur false with hs3
      set s4 := s3.setWsActive t true with hs4
      set s5 := s4.ensureTracked t with hs5
      set s6 := s5.resumeEvents with hs6
      have heq : (s.normalSwitch t mi cur).1 =
          { s6 with monitorWs := s6.monitorWs.set mi t } := by
        unfold Sys.normalSwitch
        rw [hc, ht]
      have hM : (s.normalSwitch t mi cur).1.monitorWs = s.monitorWs.set mi t := by
        rw [heq]
        show s6.monitorWs.set mi t = s.monitorWs.set mi t
        rw [hs6, (resumeEvents_fields s5).2.2.2.1, hs5,
          (ensureTracked_fields s4 t).2.2.2, hs4, Sys.setWsActive,
          (updateWs_fields s3 t _).2.2.2.1, hs3, Sys.setWsActive,
          (updateWs_fields s2 cur _).2.2.2.1, hs2,
          (registerSuppressed_fields s1 _).2.2.2.1, hs1,
          (suppressEvents_fields s).2.2.2.1]
      have hF : wsFlags (s.normalSwitch t mi cur).1 =
          ((wsFlags s).map (fun p => if p.1 == cur then (p.1, false) else p)).map
            (fun p => if p.1 == t then (p.1, true) else p) := by
        rw [heq]
        have h6 : wsFlags { s6 with monitorWs := s6.monitorWs.set mi t }
            = wsFlags s6 := wsFlags_congr rfl
        rw [h6, hs6, wsFlags_congr (resumeEvents_fields s5).2.2.2.2, hs5,
          (monProj_ensureTracked s4 t).2, hs4, wsFlags_setWsActive, hs3,
          wsFlags_setWsActive, hs2,
          wsFlags_congr (registerSuppressed_fields s1 _).2.2.2.2, hs1,
          wsFlags_congr (suppressEvents_fields s).2.2.2.2]
      have hcurne : cur ≠ t := by
        intro hceq
        exact hnotin (hceq ▸ (hcur ▸ getD_mem_of_lt s.monitorWs mi 1 hmi))
      refine ⟨?_, ?_, ?_⟩
      · rw [wsIds_eq_flags_fst, hF,
          map_fst_flags_map _ _ (fun p => by by_cases hpt : (p.1 == t) = true <;>
            simp [hpt]),
          map_fst_flags_map _ _ (fun p => by by_cases hpc : (p.1 == cur) = true <;>
            simp [hpc]),
          ← wsIds_eq_flags_fst]
        exact hids
      · rw [hM]
        exact nodup_set_of_not_mem s.monitorWs mi t hmnd hnotin
      · intro id hid
        rw [hM] at hid
        rw [hF]
        rcases List.mem_or_eq_of_mem_set hid with hidmem | hidt
        · have hidne : id ≠ cur := by
            intro hceq
            subst hceq
            rw [← hcur] at hid
            exact not_mem_set_of_nodup s.monitorWs mi t 1 hmnd hmi
              (hcur ▸ hcurne) hid
          have h1 : (id, true) ∈ (wsFlags s).map
              (fun p => if p.1 == cur then (p.1, false) else p) := by
            refine List.mem_map.2 ⟨(id, true), hact id hidmem, ?_⟩
            simp [hidne]
          refine List.mem_map.2 ⟨(id, true), h1, ?_⟩
          by_cases hidt : id = t <;> simp [hidt]
        · rw [hidt]
          have hfind : s.workspaces.find? (fun w2 => w2.id == t) = some tgtWs := ht
          have hmem : tgtWs ∈ s.workspaces := List.mem_of_find?_eq_some hfind
          have hpw := List.find?_some hfind
          have htid : tgtWs.id = t := eq_of_beq hpw
          have h0 : ((tgtWs.id, tgtWs.active) : ℕ × Bool) ∈ wsFlags s :=
            List.mem_map_of_mem _ hmem
          have h2 := List.mem_map_of_mem
            (fun p : ℕ × Bool => if p.1 == cur then (p.1, false) else p) h0
          have h3 := List.mem_map_of_mem
            (fun p : ℕ × Bool => if p.1 == t then (p.1, true) else p) h2
          have hval : (fun p : ℕ × Bool => if p.1 == t then (p.1, true) else p)
              ((fun p : ℕ × Bool => if p.1 == cur then (p.1, false) else p)
                (tgtWs.id, tgtWs.active)) = (t, true) := by
            subst htid
            by_cases hc1 : tgtWs.id = cur <;> simp [hc1]
          rw [hval] at h3
          exact h3

end MonitorInvLemmas

section MonitorInvLemmas2

theorem monitorInv_swapWorkspaces (s : Sys) (ma mb : ℕ) (hinv : monitorInv s)
    (hma : ma < s.monitorWs.length) (hmb : mb < s.monitorWs.length) :
    monitorInv (s.swapWorkspaces ma mb).1 := by
  obtain ⟨hids, hmnd, hact⟩ := hinv
  cases ha : s.getWs (s.monitorWs.getD ma 1) with
  | none =>
    have heq : s.swapWorkspaces ma mb = (s, false) := by
      unfold Sys.swapWorkspaces
      rw [ha]
    rw [heq]
    exact ⟨hids, hmnd, hact⟩
  | some wsA =>
    cases hb : s.getWs (s.monitorWs.getD mb 1) with
    | none =>
      have heq : s.swapWorkspaces ma mb = (s, false) := by
        unfold Sys.swapWorkspaces
        rw [ha, hb]
      rw [heq]
      exact ⟨hids, hmnd, hact⟩
    | some wsB =>
      set s1 := s.suppressEvents with hs1
      set s2 := s1.registerSuppressed [wsA, wsB] with hs2
      set newMon := (s2.monitorWs.set ma (s.monitorWs.getD mb 1)).set mb
        (s.monitorWs.getD ma 1) with hnm
      set s3 := { s2 with monitorWs := newMon } with hs3
      set s4 := s3.ensureTracked (s.monitorWs.getD ma 1) with hs4
      set s5 := s4.ensureTracked (s.monitorWs.getD mb 1) with hs5
      have heq : (s.swapWorkspaces ma mb).1 = s5.resumeEvents := by
        unfold Sys.swapWorkspaces
        rw [ha, hb]
      have hmon2 : s2.monitorWs = s.monitorWs := by
        rw [hs2, (registerSuppressed_fields s1 _).2.2.2.1, hs1,
          (suppressEvents_fields s).2.2.2.1]
      have hM : (s.swapWorkspaces ma mb).1.monitorWs =
          (s.monitorWs.set ma (s.monitorWs.getD mb 1)).set mb
            (s.monitorWs.getD ma 1) := by
        rw [heq, (resumeEvents_fields s5).2.2.2.1, hs5,
          (ensureTracked_fields s4 _).2.2.2, hs4,
          (ensureTracked_fields s3 _).2.2.2, hs3]
        show newMon = _
        rw [hnm, hmon2]
      have hF : wsFlags (s.swapWorkspaces ma mb).1 = wsFlags s := by
        rw [heq, wsFlags_congr (resumeEvents_fields s5).2.2.2.2, hs5,
          (monProj_ensureTracked s4 _).2, hs4, (monProj_ensureTracked s3 _).2,
          hs3]
        have h3 : wsFlags { s2 with monitorWs := newMon } = wsFlags s2 :=
          wsFlags_congr rfl
        rw [h3, hs2, wsFlags_congr (registerSuppressed_fields s1 _).2.2.2.2,
          hs1, wsFlags_congr (suppressEvents_fields s).2.2.2.2]
      refine ⟨?_, ?_, ?_⟩
      · rw [wsIds_eq_flags_fst, hF, ← wsIds_eq_flags_fst]
        exact hids
      · rw [hM]
        exact nodup_set_swap s.monitorWs ma mb hma hmb hmnd
      · intro id hid
        rw [hM] at hid
        rw [hF]
        rcases List.mem_or_eq_of_mem_set hid with hid2 | hid2
        · rcases List.mem_or_eq_of_mem_set hid2 with hid3 | hid3
          · exact hact id hid3
          · subst hid3
            exact hact _ (getD_mem_of_lt s.monitorWs mb 1 hmb)
        · subst hid2
          exact hact _ (getD_mem_of_lt s.monitorWs ma 1 hma)

theorem monitorInv_switchWorkspace (s : Sys) (t mi : ℕ) (hinv : monitorInv s) :
    monitorInv (s.switchWorkspace t mi).1 := by
  by_cases h1 : (!(s.workspaces.any fun ws => ws.id == t)) = true
  · have heq : s.switchWorkspace t mi = (s, false) := by
      unfold Sys.switchWorkspace
      rw [if_pos h1]
    rw [heq]
    exact hinv
  by_cases h2 : mi < s.monitorWs.length
  · by_cases h3 : (s.monitorWs.getD mi 1 == t) = true
    · have heq : s.switchWorkspace t mi = (s, false) := by
        unfold Sys.switchWorkspace
        rw [if_neg h1, if_pos h2, if_pos h3]
      rw [heq]
      exact hinv
    · cases htm : s.getMonitorForWs t with
      | some tm =>
        have htm2 : s.monitorWs.findIdx? (fun w => w == t) = some tm := htm
        obtain ⟨htmlt, hptm, _⟩ := List.findIdx?_eq_some_iff_getElem.1 htm2
        by_cases h4 : tm ≠ mi
        · have heq : s.switchWorkspace t mi = s.swapWorkspaces mi tm := by
            unfold Sys.switchWorkspace
            rw [if_neg h1, if_pos h2, if_neg h3, htm]
            simp only [if_pos h4]
          rw [heq]
          exact monitorInv_swapWorkspaces s mi tm hinv h2 htmlt
        · exfalso
          apply h3
          have h4eq : tm = mi := of_not_not h4
          have hgd : s.monitorWs.getD tm 1 = t := by
            rw [getD_eq_getElem s.monitorWs tm 1 htmlt]
            exact eq_of_beq hptm
          rw [h4eq] at hgd
          rw [hgd]
          exact beq_self_eq_true t
      | none =>
        have hnotin : t ∉ s.monitorWs := by
          intro hmem
          have hnone : s.monitorWs.findIdx? (fun w => w == t) = none := htm
          have := (List.findIdx?_eq_none_iff.1 hnone) t hmem
          simp at this
        have heq : s.switchWorkspace t mi =
            s.normalSwitch t mi (s.monitorWs.getD mi 1) := by
          unfold Sys.switchWorkspace
          rw [if_neg h1, if_pos h2, if_neg h3, htm]
        rw [heq]
        exact monitorInv_normalSwitch s t mi _ hinv h2 rfl hnotin
  · have heq : s.switchWorkspace t mi = (s, false) := by
      unfold Sys.switchWorkspace
      rw [if_neg h1, if_neg h2]
    rw [heq]
    exact hinv

end MonitorInvLemmas2

section MonitorInvLemmas3

theorem monitorInv_refreshMonitors (s : Sys) (k : ℕ) (hinv : monitorInv s) :
    monitorInv (s.refreshMonitors k) := by
  obtain ⟨hids, hmnd, hact⟩ := hinv
  by_cases hk : k = 0
  · have heq : s.refreshMonitors k = s := by
      unfold Sys.refreshMonitors
      rw [if_pos hk]
    rw [heq]
    exact ⟨hids, hmnd, hact⟩
  · set sc := ({ s with monitorCount := k } : Sys) with hsc
    set popped := sc.monitorWs.drop k with hpop
    set s2 := sc.suppressEvents with hs2
    set s3 := popped.foldl (fun st wsId => st.setWsActive wsId false) s2 with hs3
    have heq : s.refreshMonitors k =
        ({ s3 with monitorWs := s3.monitorWs.take k }).resumeEvents := by
      unfold Sys.refreshMonitors
      rw [if_neg hk]
    have hfold := foldDeactivate_proj popped s2
    have hmon3 : s3.monitorWs = s.monitorWs := by
      rw [hs3, hfold.1, hs2, (suppressEvents_fields sc).2.2.2.1]
    have hM : (s.refreshMonitors k).monitorWs = s.monitorWs.take k := by
      rw [heq, (resumeEvents_fields _).2.2.2.1]
      show s3.monitorWs.take k = _
      rw [hmon3]
    have hF : wsFlags (s.refreshMonitors k) =
        (wsFlags s).map (fun p => if p.1 ∈ popped then (p.1, false) else p) := by
      rw [heq, wsFlags_congr (resumeEvents_fields _).2.2.2.2]
      have hcg : wsFlags { s3 with monitorWs := s3.monitorWs.take k } =
          wsFlags s3 := wsFlags_congr rfl
      rw [hcg, hs3, hfold.2, hs2, wsFlags_congr (suppressEvents_fields sc).2.2.2.2]
      rfl
    have hpops : popped = s.monitorWs.drop k := hpop
    refine ⟨?_, ?_, ?_⟩
    · rw [wsIds_eq_flags_fst, hF,
        map_fst_flags_map _ _ (fun p => by
          by_cases hp : p.1 ∈ popped <;> simp [hp]),
        ← wsIds_eq_flags_fst]
      exact hids
    · rw [hM]
      exact List.Sublist.nodup (List.take_sublist k s.monitorWs) hmnd
    · intro id hid
      rw [hM] at hid
      rw [hF]
      have hidl : id ∈ s.monitorWs := (List.take_sublist k s.monitorWs).subset hid
      have hdisj : id ∉ s.monitorWs.drop k := by
        intro hmemd
        have hnd2 : (s.monitorWs.take k ++ s.monitorWs.drop k).Nodup := by
          rw [List.take_append_drop]
          exact hmnd
        exact (List.nodup_append.1 hnd2).2.2 hid hmemd
      refine List.mem_map.2 ⟨(id, true), hact id hidl, ?_⟩
      rw [hpops]
      simp [hdisj]

theorem monitorInv_init (N M : ℕ) (hMN : M ≤ N) (v m nf : List ℕ) :
    monitorInv (initSys N M v m nf) := by
  have hmon0 : (List.range M).map (fun i => if i + 1 > N then 1 else i + 1) =
      (List.range M).map (fun i => i + 1) := by
    apply List.map_congr_left
    intro i hi
    have hiM : i < M := List.mem_range.1 hi
    rw [if_neg (by omega)]
  have hmon : (initSys N M v m nf).monitorWs = (List.range M).map (fun i => i + 1) :=
    hmon0
  have hflags : wsFlags (initSys N M v m nf) =
      ((List.range N).map (fun i => Ws.mk (i + 1) [] [] false)).map
        (fun ws => (ws.id, if ws.id ∈ (List.range M).map
          (fun i => if i + 1 > N then 1 else i + 1) then true else ws.active)) :=
    foldActivate_flags _ _
  refine ⟨?_, ?_, ?_⟩
  · have hids : (initSys N M v m nf).workspaces.map Ws.id =
        (List.range N).map (fun i => i + 1) := by
      rw [wsIds_eq_flags_fst, hflags, List.map_map, List.map_map]
      rfl
    rw [hids]
    exact (List.nodup_range N).map (fun a b hab => by omega)
  · rw [hmon]
    exact (List.nodup_range M).map (fun a b hab => by omega)
  · intro id hid
    rw [hmon] at hid
    obtain ⟨i, hiM0, hieq⟩ := List.mem_map.1 hid
    have hiM : i < M := List.mem_range.1 hiM0
    rw [hflags]
    refine List.mem_map.2 ⟨Ws.mk (i + 1) [] [] false,
      List.mem_map.2 ⟨i, List.mem_range.2 (by omega), rfl⟩, ?_⟩
    have hidin : (i + 1) ∈ (List.range M).map
        (fun i => if i + 1 > N then 1 else i + 1) := by
      rw [hmon0]
      exact List.mem_map.2 ⟨i, List.mem_range.2 hiM, rfl⟩
    rw [← hieq]
    simp [hidin]

end MonitorInvLemmas3

section MonitorInvStep

/-- Every transition of the combined system preserves the assignment
invariant. -/
theorem monitorInv_step {s s' : Sys} (hst : Step s s') (hinv : monitorInv s) :
    monitorInv s' := by
  cases hst with
  | attach => exact monitorInv_congr rfl rfl hinv
  | evShow h =>
    exact monitorInv_congr (monProj_handleShow s h hinv.1).1
      (monProj_handleShow s h hinv.1).2 hinv
  | evHide h =>
    exact monitorInv_congr (monProj_handleHide s h hinv.1).1
      (monProj_handleHide s h hinv.1).2 hinv
  | evDestroy h =>
    exact monitorInv_congr (monProj_handleDestroy s h hinv.1).1
      (monProj_handleDestroy s h hinv.1).2 hinv
  | evForeground h =>
    exact monitorInv_congr (monProj_handleForeground s h hinv.1).1
      (monProj_handleForeground s h hinv.1).2 hinv
  | evMinimize h =>
    exact monitorInv_congr (monProj_handleMinimize s h hinv.1).1
      (monProj_handleMinimize s h hinv.1).2 hinv
  | evRestore h =>
    exact monitorInv_congr (monProj_handleRestore s h hinv.1).1
      (monProj_handleRestore s h hinv.1).2 hinv
  | scan h =>
    exact monitorInv_congr (monProj_scanWindow s h hinv.1).1
      (monProj_scanWindow s h hinv.1).2 hinv
  | opAdd h =>
    exact monitorInv_congr (monProj_wsmAddWindow s h hinv.1).1
      (monProj_wsmAddWindow s h hinv.1).2 hinv
  | opRemove h =>
    exact monitorInv_congr (monProj_wsmRemoveWindow s h).1
      (monProj_wsmRemoveWindow s h).2 hinv
  | opSwitch t mi => exact monitorInv_switchWorkspace s t mi hinv
  | opMove h t =>
    exact monitorInv_congr (monProj_moveWindow s h t).1
      (monProj_moveWindow s h t).2 hinv
  | opMoveNext h =>
    exact monitorInv_congr (monProj_moveToNextMonitor s h).1
      (monProj_moveToNextMonitor s h).2 hinv
  | opRefresh k => exact monitorInv_refreshMonitors s k hinv
  | opRestoreAll =>
    exact monitorInv_congr (monProj_restoreAll s).1 (monProj_restoreAll s).2 hinv
  | opSwapMaster wsId =>
    exact monitorInv_congr (monProj_wsSwapMaster s wsId).1
      (monProj_wsSwapMaster s wsId).2 hinv
  | opRotateNext wsId =>
    exact monitorInv_congr (monProj_wsRotateNext s wsId).1
      (monProj_wsRotateNext s wsId).2 hinv
  | opRotatePrev wsId =>
    exact monitorInv_congr (monProj_wsRotatePrev s wsId).1
      (monProj_wsRotatePrev s wsId).2 hinv
  | env v m nf => exact monitorInv_congr rfl rfl hinv

theorem monitorInv_reachable {N M : ℕ} (hMN : M ≤ N) {s : Sys}
    (hr : Reachable N M s) : monitorInv s := by
  induction hr with
  | init v m nf => exact monitorInv_init N M hMN v m nf
  | step _ hstep ih => exact monitorInv_step hstep ih

end MonitorInvStep

/-- C6 (counterexample): with more monitors than workspaces the claim is
already false at construction: `WorkspaceManager.__init__` with 1
workspace and 2 monitors assigns workspace 1 to both monitors, so the
monitor-to-workspace assignment is not injective. -/
theorem C6_counterexample :
    ¬ (∀ N M : ℕ, ∀ s : Sys, Reachable N M s → s.monitorWs.Nodup) := by
  intro hall
  exact absurd (hall 1 2 _ (Reachable.init [] [] [])) (by decide)

/-- C6 (amended): provided the manager is constructed with at least as
many workspaces as monitors (M ≤ N), every reachable state — the state
after construction and after any sequence of events and operations —
maps distinct monitors to distinct workspaces, and every workspace in
the image of the assignment has its active flag set. -/
theorem C6_assignment_invariant (N M : ℕ) (hMN : M ≤ N) (s : Sys)
    (hr : Reachable N M s) :
    s.monitorWs.Nodup ∧ ∀ id ∈ s.monitorWs, (id, true) ∈ wsFlags s :=
  ⟨(monitorInv_reachable hMN hr).2.1, (monitorInv_reachable hMN hr).2.2⟩

/-- Witness for C6: a freshly constructed manager with 3 workspaces and 2
monitors, after attaching the window manager and switching monitor 1 to
workspace 3, satisfies the invariant. -/
theorem C6_witness :
    (((initSys 3 2 [] [] []).switchWorkspace 3 1).1.monitorWs.Nodup ∧
      ∀ id ∈ ((initSys 3 2 [] [] []).switchWorkspace 3 1).1.monitorWs,
        (id, true) ∈ wsFlags ((initSys 3 2 [] [] []).switchWorkspace 3 1).1) :=
  C6_assignment_invariant 3 2 (by decide) _
    ((Reachable.init [] [] []).step (Step.opSwitch _ 3 1))

end SWM
